import Mathlib

/-!
# mtg_life_tracker: the undo/redo history and the command loop of `src/main.c`

A shallow embedding of the history subsystem of `src/main.c` (`cur`, `hist_init`,
`hist_push`, `hist_undo`, `hist_redo`), of `reset_match`, of the state-changing commands of
`main` and of the die helpers (`parse_die`, `rintn`), and proofs of their specification.

Modelling conventions.

* A C `int` is a Lean `Int`.  Every arithmetic step of the history code is `± 1` on `cur`
  or `top`, so on histories with `0 ≤ cur ≤ top ≤ MAX_HISTORY - 1` all values stay within
  `-1 .. MAX_HISTORY` and no machine overflow can occur.  (Signed overflow is undefined in C;
  in this code it could only arise in `hist_undo` at `cur = INT_MIN` or in `hist_redo` at
  `cur = INT_MAX`, which no run of the program reaches.)
* The array `State hist[MAX_HISTORY]` is a `List State`; every read and write of it goes
  through the bounds-checked `rd` / `wr`, which fail (`none`) on an index outside the array.
  An operation that touches the array therefore returns an `Option`.
* The macro `MAX_HISTORY` is passed to `hist_push` as the parameter `cap`; the code's value
  is `MAX_HISTORY = 200`.
* A function mutating `*H` returns the new history; `hist_undo` / `hist_redo` return the
  pair of the C return value and the new history.
-/

namespace MtgLifeTracker

/-! ## Data model (src/main.c, lines 6-23) -/

/-- The macro `MAX_PLAYERS` of `src/main.c`. -/
def MAX_PLAYERS : Nat := 4

/-- The macro `MAX_HISTORY` of `src/main.c`. -/
def MAX_HISTORY : Nat := 200

/-- The struct `State`: one snapshot of the match.  The arrays `life`, `poison` and `cmdmg`
are lists (of `MAX_PLAYERS` entries in the C program). -/
structure State where
  players : Int
  commander : Int
  life : List Int
  poison : List Int
  cmdmg : List (List Int)
  turn : Int
deriving DecidableEq, Repr

/-- The struct `History`: the array `hist`, and the indices `top` and `cur`. -/
structure History where
  hist : List State
  top : Int
  cur : Int
deriving DecidableEq, Repr

/-! ## Bounds-checked array access -/

/-- Read `a[i]`; fails when `i` is outside the array. -/
def rd (a : List State) (i : Int) : Option State :=
  if 0 ≤ i ∧ i < (a.length : Int) then a[i.toNat]? else none

/-- Write `a[i] = s`; fails when `i` is outside the array. -/
def wr (a : List State) (i : Int) (s : State) : Option (List State) :=
  if 0 ≤ i ∧ i < (a.length : Int) then some (a.set i.toNat s) else none

/-! ## Operations (src/main.c, lines 29-59) -/

/-- The function `cur`: the entry at index `H->cur` (the C function returns its address;
the callers read through it). -/
def cur (H : History) : Option State :=
  rd H.hist H.cur

/-- The function `hist_init`: `H->top = H->cur = 0; H->hist[0] = *initial;`. -/
def hist_init (H : History) (initial : State) : Option History :=
  match wr H.hist 0 initial with
  | none => none
  | some h => some { hist := h, top := 0, cur := 0 }

/-- The loop `for (int i = 0; i < H->top; i++) H->hist[i] = H->hist[i+1];` of `hist_push`,
entered at index `i` with `n` iterations left (the loop does not change `H->top`, so it runs
`H->top - i` times, or not at all when that is negative). -/
def shift (a : List State) (i : Int) : Nat → Option (List State)
  | 0 => some a
  | n + 1 =>
    match rd a (i + 1) with
    | none => none
    | some v =>
      match wr a i v with
      | none => none
      | some a1 => shift a1 (i + 1) n

/-- The function `hist_push`, with `cap` for the macro `MAX_HISTORY`. -/
def hist_push (cap : Nat) (H : History) (next : State) : Option History :=
  -- if (H->cur < H->top) H->top = H->cur;
  let H1 : History := if H.cur < H.top then { H with top := H.cur } else H
  -- if (H->top + 1 >= MAX_HISTORY) { shift; H->top--; if (H->cur > 0) H->cur--; }
  let H2 : Option History :=
    if H1.top + 1 ≥ (cap : Int) then
      match shift H1.hist 0 H1.top.toNat with
      | none => none
      | some h =>
        let H1a : History := { H1 with hist := h, top := H1.top - 1 }
        some (if H1a.cur > 0 then { H1a with cur := H1a.cur - 1 } else H1a)
    else some H1
  match H2 with
  | none => none
  | some H2 =>
    -- H->top++; H->cur++; H->hist[H->cur] = *next;
    let H3 : History := { H2 with top := H2.top + 1, cur := H2.cur + 1 }
    match wr H3.hist H3.cur next with
    | none => none
    | some h => some { H3 with hist := h }

/-- The function `hist_undo`: the return value and the history afterwards. -/
def hist_undo (H : History) : Int × History :=
  if H.cur = 0 then (0, H) else (1, { H with cur := H.cur - 1 })

/-- The function `hist_redo`: the return value and the history afterwards. -/
def hist_redo (H : History) : Int × History :=
  if H.cur = H.top then (0, H) else (1, { H with cur := H.cur + 1 })

/-! ## Call sequences -/

/-- One call on the history, as issued by the command loop of `main`. -/
inductive Op where
  | push (s : State)
  | undo
  | redo
deriving DecidableEq, Repr

/-- Perform one call (return values of undo / redo dropped). -/
def step (cap : Nat) (H : History) : Op → Option History
  | Op.push s => hist_push cap H s
  | Op.undo => some (hist_undo H).2
  | Op.redo => some (hist_redo H).2

/-- Perform a sequence of calls, left to right. -/
def run (cap : Nat) (H : History) : List Op → Option History
  | [] => some H
  | o :: os =>
    match step cap H o with
    | none => none
    | some H1 => run cap H1 os

/-- Push the snapshots `S 1, ..., S n` in this order (no undo or redo in between). -/
def pushSeq (cap : Nat) (S : Nat → State) (H : History) : Nat → Option History
  | 0 => some H
  | n + 1 =>
    match pushSeq cap S H n with
    | none => none
    | some H1 => hist_push cap H1 (S (n + 1))

/-- The bounds of the spec's Invariant A, `0 ≤ cur ≤ top ≤ cap - 1`, for an array of `cap`
entries. -/
def Valid (cap : Nat) (H : History) : Prop :=
  H.hist.length = cap ∧ 0 ≤ H.cur ∧ H.cur ≤ H.top ∧ H.top ≤ (cap : Int) - 1

/-- A snapshot with life total `n` for two players, for concrete examples. -/
def sampleState (n : Int) : State :=
  { players := 2, commander := 0, life := [n, n, 0, 0], poison := [0, 0, 0, 0],
    cmdmg := [[0, 0, 0, 0], [0, 0, 0, 0], [0, 0, 0, 0], [0, 0, 0, 0]], turn := 0 }

/-! ## Observations, branches of `hist_push`, repeated undo -/

/-- Perform one call and keep what the caller sees of it: the return value of `hist_undo` /
`hist_redo` (0 for `hist_push`, which returns nothing) and the history afterwards. -/
def stepObs (cap : Nat) (H : History) : Op → Option (Int × History)
  | Op.push s =>
    match hist_push cap H s with
    | none => none
    | some H1 => some (0, H1)
  | Op.undo => some (hist_undo H)
  | Op.redo => some (hist_redo H)

/-- Perform a sequence of calls; the trace lists, for each call, its return value and the
snapshot `cur` returns right after it. -/
def obsRun (cap : Nat) (H : History) : List Op → Option (List (Int × Option State) × History)
  | [] => some ([], H)
  | o :: os =>
    match stepObs cap H o with
    | none => none
    | some (r, H1) =>
      match obsRun cap H1 os with
      | none => none
      | some (tr, H2) => some ((r, cur H1) :: tr, H2)

/-- Two histories with the same `cur`, the same `top` and the same entries at the indices
`0 .. top` (the entries above `top` may differ). -/
def Agree (H K : History) : Prop :=
  H.cur = K.cur ∧ H.top = K.top ∧ ∀ j : Int, 0 ≤ j → j ≤ H.top → rd H.hist j = rd K.hist j

/-- The condition of the first `if` of `hist_push`: `H->cur < H->top` (truncation). -/
def push_truncates (H : History) : Prop :=
  H.cur < H.top

/-- The value of `H->top` after the first `if` of `hist_push`. -/
def push_top1 (H : History) : Int :=
  if H.cur < H.top then H.cur else H.top

/-- The condition of the second `if` of `hist_push`: `H->top + 1 >= MAX_HISTORY`, on the
`top` left by the first `if` (eviction). -/
def push_evicts (cap : Nat) (H : History) : Prop :=
  push_top1 H + 1 ≥ (cap : Int)

/-- The value of `H->cur` at the end of the eviction block: `if (H->cur > 0) H->cur--;`. -/
def push_cur1 (H : History) : Int :=
  if H.cur > 0 then H.cur - 1 else H.cur

/-- The history after `k` calls of `hist_undo` in a row. -/
def undoN (H : History) : Nat → History
  | 0 => H
  | k + 1 => (hist_undo (undoN H k)).2

/-! ## The match state and the command loop (src/main.c, lines 61-72, 114-119, 145-239)

The arguments of the commands come from the user, so here the additions on `int` can leave
the range of a C `int`.  The C standard leaves signed overflow undefined; the embedding takes
the two's-complement wrap-around `wrap32` that the usual targets produce.  The `int` arrays
of a `State` are accessed through the bounds-checked `geti` / `seti` / `get2` / `set2`. -/

/-- The least value of a 32-bit C `int`. -/
def INT_MIN : Int := -2147483648

/-- The greatest value of a 32-bit C `int`. -/
def INT_MAX : Int := 2147483647

/-- Reduce an integer into the range of a 32-bit C `int` (two's complement). -/
def wrap32 (x : Int) : Int :=
  (x + 2147483648) % 4294967296 - 2147483648

/-- Read `a[i]` of an `int` array; fails when `i` is outside the array. -/
def geti (a : List Int) (i : Int) : Option Int :=
  if 0 ≤ i ∧ i < (a.length : Int) then a[i.toNat]? else none

/-- Write `a[i] = v` of an `int` array; fails when `i` is outside the array. -/
def seti (a : List Int) (i : Int) (v : Int) : Option (List Int) :=
  if 0 ≤ i ∧ i < (a.length : Int) then some (a.set i.toNat v) else none

/-- Read `m[i][j]` of a two-dimensional `int` array; fails when an index is outside. -/
def get2 (m : List (List Int)) (i j : Int) : Option Int :=
  if 0 ≤ i ∧ i < (m.length : Int) then
    match m[i.toNat]? with
    | none => none
    | some row => geti row j
  else none

/-- Write `m[i][j] = v` of a two-dimensional `int` array; fails when an index is outside. -/
def set2 (m : List (List Int)) (i j : Int) (v : Int) : Option (List (List Int)) :=
  if 0 ≤ i ∧ i < (m.length : Int) then
    match m[i.toNat]? with
    | none => none
    | some row =>
      match seti row j v with
      | none => none
      | some row1 => some (m.set i.toNat row1)
  else none

/-- The loop `for (int i = 0; i < players; i++) { S->life[i] = commander ? 40 : 20;
S->poison[i] = 0; }` of `reset_match`, entered at index `i` with `n` iterations left. -/
def reset_loop (commander : Int) (S : State) (i : Int) : Nat → Option State
  | 0 => some S
  | n + 1 =>
    match seti S.life i (if commander ≠ 0 then 40 else 20) with
    | none => none
    | some l =>
      match seti S.poison i 0 with
      | none => none
      | some q => reset_loop commander { S with life := l, poison := q } (i + 1) n

/-- The two clamps of `reset_match`: `if (players < 2) players = 2;
if (players > MAX_PLAYERS) players = MAX_PLAYERS;`. -/
def clamp_players (players : Int) : Int :=
  let players1 : Int := if players < 2 then 2 else players
  if players1 > (MAX_PLAYERS : Int) then (MAX_PLAYERS : Int) else players1

/-- The function `reset_match`: the state it leaves in `*S`.  The `memset` clears the whole
struct, so the result does not depend on what `*S` held before. -/
def reset_match (players commander : Int) : Option State :=
  -- memset(S, 0, sizeof(*S));
  let S0 : State :=
    { players := 0, commander := 0, life := List.replicate MAX_PLAYERS 0,
      poison := List.replicate MAX_PLAYERS 0,
      cmdmg := List.replicate MAX_PLAYERS (List.replicate MAX_PLAYERS 0), turn := 0 }
  -- if (players < 2) players = 2; if (players > MAX_PLAYERS) players = MAX_PLAYERS;
  let players2 : Int := clamp_players players
  -- S->players = players; S->commander = commander;
  let S1 : State := { S0 with players := players2, commander := commander }
  match reset_loop commander S1 0 players2.toNat with
  | none => none
  -- S->turn = 0;
  | some S2 => some { S2 with turn := 0 }

/-- The state-changing commands of `main` with their arguments as `sscanf` delivered them
(`new`: the count `p`, 0 when none was read, and whether a second word starting with `c` or
`C` was read; `plus` / `minus`: the commands `+<p> <n>` and `-<p> <n>`). -/
inductive Cmd where
  | new (p : Int) (c : Bool)
  | next
  | set (p val : Int)
  | poison (p dv : Int)
  | cmd (tgt src inc : Int)
  | plus (p dv : Int)
  | minus (p dv : Int)
deriving DecidableEq, Repr

/-- The effect of a state-changing command on the working copy `T` of `main`: the new `T`
and the flag `changed`. -/
def apply_cmd (T : State) : Cmd → Option (State × Bool)
  | Cmd.new p c =>
    -- if (p <= 0) p = 4; reset_match(&T, p, cmd); changed = 1;
    match reset_match (if p ≤ 0 then 4 else p) (if c then 1 else 0) with
    | none => none
    | some T1 => some (T1, true)
  | Cmd.next =>
    -- T.turn = (T.turn + 1) % T.players; changed = 1;
    if T.players = 0 then none
    else some ({ T with turn := Int.tmod (wrap32 (T.turn + 1)) T.players }, true)
  | Cmd.set p val =>
    -- if (p >= 1 && p <= T.players) { T.life[p-1] = val; changed = 1; }
    if p ≥ 1 ∧ p ≤ T.players then
      match seti T.life (p - 1) val with
      | none => none
      | some l => some ({ T with life := l }, true)
    else some (T, false)
  | Cmd.poison p dv =>
    -- T.poison[p-1] += dv; if (T.poison[p-1] < 0) T.poison[p-1] = 0; changed = 1;
    if p ≥ 1 ∧ p ≤ T.players then
      match geti T.poison (p - 1) with
      | none => none
      | some old =>
        match seti T.poison (p - 1)
            (if wrap32 (old + dv) < 0 then 0 else wrap32 (old + dv)) with
        | none => none
        | some q => some ({ T with poison := q }, true)
    else some (T, false)
  | Cmd.cmd tgt src inc =>
    -- if (T.commander && tgt>=1 && tgt<=T.players && src>=1 && src<=T.players && tgt!=src)
    if T.commander ≠ 0 ∧ tgt ≥ 1 ∧ tgt ≤ T.players ∧ src ≥ 1 ∧ src ≤ T.players ∧ tgt ≠ src then
      match get2 T.cmdmg (tgt - 1) (src - 1) with
      | none => none
      | some old =>
        match set2 T.cmdmg (tgt - 1) (src - 1)
            (if wrap32 (old + inc) < 0 then 0 else wrap32 (old + inc)) with
        | none => none
        | some m => some ({ T with cmdmg := m }, true)
    else some (T, false)
  | Cmd.plus p dv =>
    -- T.life[p-1] += dv; changed = 1;
    if p ≥ 1 ∧ p ≤ T.players then
      match geti T.life (p - 1) with
      | none => none
      | some old =>
        match seti T.life (p - 1) (wrap32 (old + dv)) with
        | none => none
        | some l => some ({ T with life := l }, true)
    else some (T, false)
  | Cmd.minus p dv =>
    -- dv = -dv; T.life[p-1] += dv; changed = 1;
    if p ≥ 1 ∧ p ≤ T.players then
      match geti T.life (p - 1) with
      | none => none
      | some old =>
        match seti T.life (p - 1) (wrap32 (old + wrap32 (-dv))) with
        | none => none
        | some l => some ({ T with life := l }, true)
    else some (T, false)

/-- One line of input that touches the history: a state-changing command, `undo` or
`redo`. -/
inductive Input where
  | cmd (c : Cmd)
  | undo
  | redo
deriving DecidableEq, Repr

/-- One turn of the loop of `main`: `State T = *cur(&H);`, then the command, and
`hist_push(&H, &T)` when `changed` is set. -/
def main_step (cap : Nat) (H : History) (x : Input) : Option History :=
  match cur H with
  | none => none
  | some T =>
    match x with
    | Input.undo => some (hist_undo H).2
    | Input.redo => some (hist_redo H).2
    | Input.cmd c =>
      match apply_cmd T c with
      | none => none
      | some (T1, changed) => if changed then hist_push cap H T1 else some H

/-- The loop of `main` over a list of inputs. -/
def main_run (cap : Nat) (H : History) : List Input → Option History
  | [] => some H
  | x :: xs =>
    match main_step cap H x with
    | none => none
    | some H1 => main_run cap H1 xs

/-- The start of `main`: `reset_match(&S, 4, 1); hist_init(&H, &S);`. -/
def main_init (H : History) : Option History :=
  match reset_match 4 1 with
  | none => none
  | some S => hist_init H S

/-- A state as the command loop keeps it: the arrays have `MAX_PLAYERS` entries, the player
count is in `2 .. MAX_PLAYERS`, the turn is in `0 .. players - 1`, and the poison counters
and commander-damage entries are not negative. -/
def StateOK (s : State) : Prop :=
  2 ≤ s.players ∧ s.players ≤ (MAX_PLAYERS : Int) ∧ 0 ≤ s.turn ∧ s.turn < s.players ∧
  s.life.length = MAX_PLAYERS ∧ s.poison.length = MAX_PLAYERS ∧
  s.cmdmg.length = MAX_PLAYERS ∧ (∀ row ∈ s.cmdmg, row.length = MAX_PLAYERS) ∧
  (∀ x ∈ s.poison, 0 ≤ x) ∧ (∀ row ∈ s.cmdmg, ∀ x ∈ row, 0 ≤ x)

/-- A history as the command loop keeps it: the bounds hold and every entry at an index
`0 .. top` (every committed state still in the window) is a `StateOK` state. -/
def HistOK (cap : Nat) (H : History) : Prop :=
  Valid cap H ∧ ∀ j : Int, 0 ≤ j → j ≤ H.top → ∃ s, rd H.hist j = some s ∧ StateOK s

/-! ## Die rolls (src/main.c, lines 114-119) -/

/-- The digits loop of the C library function `atoi`: the value of the leading decimal
digits, from the accumulator `acc`. -/
def atoi_digits (acc : Int) : List Char → Int
  | [] => acc
  | c :: cs => if c.isDigit then atoi_digits (acc * 10 + ((c.toNat : Int) - 48)) cs else acc

/-- The C library predicate `isspace` (in the C locale): space, `\t`, `\n`, `\v`, `\f`,
`\r`. -/
def isspace (c : Char) : Bool :=
  c.toNat = 32 || (9 ≤ c.toNat && c.toNat ≤ 13)

/-- The value the C library function `strtol` (base 10) reads from the characters of a
string: leading white space, an optional sign, then the leading decimal digits; 0 when there
is no digit; a value outside the range of a 64-bit `long` is replaced by the nearest bound. -/
def strtol10 (s : List Char) : Int :=
  let v : Int :=
    match s.dropWhile isspace with
    | [] => 0
    | c :: cs =>
      if c = '-' then - atoi_digits 0 cs
      else if c = '+' then atoi_digits 0 cs
      else atoi_digits 0 (c :: cs)
  if v < -9223372036854775808 then -9223372036854775808
  else if v > 9223372036854775807 then 9223372036854775807
  else v

/-- The C library function `atoi`.  The C standard leaves a value outside the range of
`int` undefined; the embedding takes the usual implementation `(int) strtol(s, NULL, 10)`,
the conversion to `int` being the reduction `wrap32`. -/
def atoi (s : List Char) : Int :=
  wrap32 (strtol10 s)

/-- The function `parse_die`: `(s && (s[0]=='d'||s[0]=='D')) ? atoi(s+1) : 20`; `none` is
the null pointer, and the empty list the empty string. -/
def parse_die (s : Option (List Char)) : Int :=
  match s with
  | some (c :: cs) => if c = 'd' ∨ c = 'D' then atoi cs else 20
  | _ => 20

/-- The function `rintn`, `(rand() % n) + 1`, for the value `r` returned by `rand()`; the
remainder by zero has no value, and the addition wraps around like the other `int`
additions of this section. -/
def rintn (r n : Int) : Option Int :=
  if n = 0 then none else some (wrap32 (Int.tmod r n + 1))

/-- The die size of the `roll` command: `int N = 20; if (sscanf(line+4, " %15s", d) == 1)
N = parse_die(d);`, for the word read by `sscanf` (`none` when there is none). -/
def roll_size (arg : Option (List Char)) : Int :=
  match arg with
  | none => 20
  | some d => parse_die (some d)

/-! ## Array access lemmas -/

theorem rd_eq_some_of_lt (a : List State) (i : Int) (h0 : 0 ≤ i) (h1 : i < (a.length : Int)) :
    ∃ v, rd a i = some v := by
  have hlt : i.toNat < a.length := by omega
  exact ⟨a[i.toNat], by simp [rd, h0, h1, List.getElem?_eq_getElem hlt]⟩

theorem rd_lt_of_eq_some {a : List State} {i : Int} {v : State} (h : rd a i = some v) :
    0 ≤ i ∧ i < (a.length : Int) := by
  unfold rd at h
  by_cases hc : 0 ≤ i ∧ i < (a.length : Int)
  · exact hc
  · simp [hc] at h

theorem wr_eq_some (a : List State) (i : Int) (s : State) (h0 : 0 ≤ i)
    (h1 : i < (a.length : Int)) : wr a i s = some (a.set i.toNat s) := by
  simp [wr, h0, h1]

theorem length_of_wr {a a1 : List State} {i : Int} {s : State} (h : wr a i s = some a1) :
    a1.length = a.length := by
  unfold wr at h
  by_cases hc : 0 ≤ i ∧ i < (a.length : Int)
  · simp [hc] at h; subst h; simp
  · simp [hc] at h

theorem rd_of_wr {a a1 : List State} {i : Int} {s : State} (h : wr a i s = some a1) (j : Int) :
    rd a1 j = if j = i then some s else rd a j := by
  have hlen := length_of_wr h
  unfold wr at h
  by_cases hc : 0 ≤ i ∧ i < (a.length : Int)
  · simp [hc] at h
    subst h
    by_cases hj : 0 ≤ j ∧ j < (a.length : Int)
    · by_cases hji : j = i
      · subst hji
        have hlt : j.toNat < a.length := by omega
        simp [rd, hc, hlt]
      · have hne : i.toNat ≠ j.toNat := by omega
        simp [rd, hj, hji, List.getElem?_set_ne hne]
    · have hji : j ≠ i := by omega
      simp [rd, hj, hji]
  · simp [hc] at h

/-! ## The shift loop -/

/-- The shift loop started at `i` with `n` iterations left, all within the array, succeeds,
keeps the length, moves the entries `i+1 .. i+n` one index down and leaves the others. -/
theorem shift_spec (n : Nat) : ∀ (a : List State) (i : Int), 0 ≤ i →
    i + (n : Int) < (a.length : Int) →
    ∃ a1, shift a i n = some a1 ∧ a1.length = a.length ∧
      ∀ j : Int, rd a1 j = if i ≤ j ∧ j < i + (n : Int) then rd a (j + 1) else rd a j := by
  induction n with
  | zero =>
    intro a i _ _
    refine ⟨a, rfl, rfl, ?_⟩
    intro j
    have hn : ¬ (i ≤ j ∧ j < i + ((0 : Nat) : Int)) := by omega
    rw [if_neg hn]
  | succ n ih =>
    intro a i h0 h1
    obtain ⟨v, hv⟩ := rd_eq_some_of_lt a (i + 1) (by omega) (by omega)
    have hw : wr a i v = some (a.set i.toNat v) := wr_eq_some a i v h0 (by omega)
    have hlen : (a.set i.toNat v).length = a.length := by simp
    obtain ⟨a2, h2, hlen2, hrd2⟩ := ih (a.set i.toNat v) (i + 1) (by omega) (by rw [hlen]; omega)
    refine ⟨a2, ?_, by rw [hlen2, hlen], ?_⟩
    · simp [shift, hv, hw, h2]
    · intro j
      rw [hrd2 j, rd_of_wr hw (j + 1), rd_of_wr hw j]
      by_cases hj : j = i
      · subst hj
        have c1 : ¬ (j + 1 ≤ j ∧ j < j + 1 + (n : Int)) := by omega
        have c2 : (j ≤ j ∧ j < j + ((n + 1 : Nat) : Int)) := by omega
        rw [if_neg c1, if_pos c2, if_pos rfl, hv]
      · by_cases hin : i + 1 ≤ j ∧ j < i + 1 + (n : Int)
        · have c2 : (i ≤ j ∧ j < i + ((n + 1 : Nat) : Int)) := by omega
          have c3 : j + 1 ≠ i := by omega
          rw [if_pos hin, if_pos c2, if_neg c3]
        · have c2 : ¬ (i ≤ j ∧ j < i + ((n + 1 : Nat) : Int)) := by omega
          rw [if_neg hin, if_neg c2, if_neg hj]

/-! ## What one push does -/

/-- A push from a valid history that is not at the last index: no eviction; the new entry is
written right above the old cursor, which becomes both `cur` and `top`. -/
theorem hist_push_append (cap : Nat) (H : History) (next : State) (hv : Valid cap H)
    (hc : H.cur < (cap : Int) - 1) :
    ∃ H1, hist_push cap H next = some H1 ∧ H1.hist.length = cap ∧
      H1.top = H.cur + 1 ∧ H1.cur = H.cur + 1 ∧
      ∀ j : Int, rd H1.hist j = if j = H.cur + 1 then some next else rd H.hist j := by
  obtain ⟨hl, h0, h1, h2⟩ := hv
  have hw : wr H.hist (H.cur + 1) next = some (H.hist.set (H.cur + 1).toNat next) :=
    wr_eq_some _ _ _ (by omega) (by omega)
  refine ⟨{ hist := H.hist.set (H.cur + 1).toNat next, top := H.cur + 1, cur := H.cur + 1 },
    ?_, by simp [hl], rfl, rfl, fun j => rd_of_wr hw j⟩
  by_cases hlt : H.cur < H.top
  · have hge : ¬ (H.cur + 1 ≥ (cap : Int)) := by omega
    simp [hist_push, hlt, hge, hw]
  · have heq : H.top = H.cur := by omega
    have hge : ¬ (H.top + 1 ≥ (cap : Int)) := by omega
    have hge2 : ¬ ((cap : Int) ≤ H.cur + 1) := by omega
    simp [hist_push, hlt, hge, heq, hge2, hw]

/-- A push from a valid history at the last index (`cur = top = cap - 1`): the oldest entry
is evicted, the others move one index down, and the new entry is written at the last index. -/
theorem hist_push_evict (cap : Nat) (H : History) (next : State) (hcap : 2 ≤ cap)
    (hv : Valid cap H) (hc : H.cur = (cap : Int) - 1) :
    ∃ H1, hist_push cap H next = some H1 ∧ H1.hist.length = cap ∧
      H1.top = (cap : Int) - 1 ∧ H1.cur = (cap : Int) - 1 ∧
      ∀ j : Int, rd H1.hist j =
        if j = (cap : Int) - 1 then some next
        else if 0 ≤ j ∧ j < (cap : Int) - 1 then rd H.hist (j + 1) else rd H.hist j := by
  obtain ⟨hl, h0, h1, h2⟩ := hv
  have htop : H.top = (cap : Int) - 1 := by omega
  have htn : (H.top.toNat : Int) = (cap : Int) - 1 := by omega
  obtain ⟨a1, hs, hlen1, hrd1⟩ := shift_spec H.top.toNat H.hist 0 (le_refl 0) (by omega)
  have hw : wr a1 ((cap : Int) - 1) next = some (a1.set ((cap : Int) - 1).toNat next) :=
    wr_eq_some _ _ _ (by omega) (by omega)
  refine ⟨{ hist := a1.set ((cap : Int) - 1).toNat next, top := (cap : Int) - 1,
            cur := (cap : Int) - 1 }, ?_, by simp [hlen1, hl], rfl, rfl, ?_⟩
  · have hlt : ¬ (H.cur < H.top) := by omega
    have hge : H.top + 1 ≥ (cap : Int) := by omega
    have hpos : H.cur > 0 := by omega
    have e1 : H.cur - 1 + 1 = (cap : Int) - 1 := by omega
    have e2 : H.top - 1 + 1 = (cap : Int) - 1 := by omega
    simp [hist_push, hlt, hge, hs, hpos, e1, e2, hw]
  · intro j
    show rd (a1.set ((cap : Int) - 1).toNat next) j = _
    rw [rd_of_wr hw j, hrd1 j, htn]
    by_cases hj : j = (cap : Int) - 1
    · simp [hj]
    · simp [hj]

/-- Every push from a valid history succeeds, and is either the append or the eviction case. -/
theorem hist_push_valid (cap : Nat) (H : History) (next : State) (hcap : 2 ≤ cap)
    (hv : Valid cap H) :
    ∃ H1, hist_push cap H next = some H1 ∧ Valid cap H1 ∧ H1.cur = H1.top ∧
      rd H1.hist H1.cur = some next := by
  by_cases hc : H.cur < (cap : Int) - 1
  · obtain ⟨H1, hp, hl, ht, hcu, hrd⟩ := hist_push_append cap H next hv hc
    refine ⟨H1, hp, ⟨hl, ?_, ?_, ?_⟩, by omega, ?_⟩
    · have := hv.2.1; omega
    · omega
    · omega
    · rw [hrd, hcu, if_pos rfl]
  · have hc2 : H.cur = (cap : Int) - 1 := by have := hv.2.2.1; have := hv.2.2.2; omega
    obtain ⟨H1, hp, hl, ht, hcu, hrd⟩ := hist_push_evict cap H next hcap hv hc2
    refine ⟨H1, hp, ⟨hl, ?_, ?_, ?_⟩, by omega, ?_⟩
    · omega
    · omega
    · omega
    · rw [hrd, hcu, if_pos rfl]

/-! ## Undo and redo -/

theorem hist_undo_valid (cap : Nat) (H : History) (hv : Valid cap H) :
    Valid cap (hist_undo H).2 := by
  obtain ⟨hl, h0, h1, h2⟩ := hv
  unfold hist_undo
  by_cases hc : H.cur = 0
  · simp [hc, Valid, hl]; omega
  · simp only [if_neg hc]
    exact ⟨hl, by show 0 ≤ H.cur - 1; omega, by show H.cur - 1 ≤ H.top; omega, h2⟩

theorem hist_redo_valid (cap : Nat) (H : History) (hv : Valid cap H) :
    Valid cap (hist_redo H).2 := by
  obtain ⟨hl, h0, h1, h2⟩ := hv
  unfold hist_redo
  by_cases hc : H.cur = H.top
  · simp only [if_pos hc]; exact ⟨hl, h0, h1, h2⟩
  · simp only [if_neg hc]
    exact ⟨hl, by show 0 ≤ H.cur + 1; omega, by show H.cur + 1 ≤ H.top; omega, h2⟩

theorem step_valid (cap : Nat) (hcap : 2 ≤ cap) (H : History) (o : Op) (hv : Valid cap H) :
    ∃ H1, step cap H o = some H1 ∧ Valid cap H1 := by
  cases o with
  | push s =>
    obtain ⟨H1, hp, hv1, _, _⟩ := hist_push_valid cap H s hcap hv
    exact ⟨H1, hp, hv1⟩
  | undo => exact ⟨_, rfl, hist_undo_valid cap H hv⟩
  | redo => exact ⟨_, rfl, hist_redo_valid cap H hv⟩

theorem run_valid (cap : Nat) (hcap : 2 ≤ cap) (ops : List Op) :
    ∀ H : History, Valid cap H → ∃ H1, run cap H ops = some H1 ∧ Valid cap H1 := by
  induction ops with
  | nil => intro H hv; exact ⟨H, rfl, hv⟩
  | cons o os ih =>
    intro H hv
    obtain ⟨H1, h1, hv1⟩ := step_valid cap hcap H o hv
    obtain ⟨H2, h2, hv2⟩ := ih H1 hv1
    exact ⟨H2, by simp [run, h1, h2], hv2⟩

theorem hist_init_valid (cap : Nat) (hcap : 1 ≤ cap) (H : History) (seed : State)
    (hl : H.hist.length = cap) :
    ∃ H1, hist_init H seed = some H1 ∧ Valid cap H1 ∧ H1.cur = 0 ∧ H1.top = 0 ∧
      rd H1.hist 0 = some seed := by
  have hw : wr H.hist 0 seed = some (H.hist.set (0 : Int).toNat seed) :=
    wr_eq_some _ _ _ (le_refl 0) (by omega)
  refine ⟨{ hist := H.hist.set (0 : Int).toNat seed, top := 0, cur := 0 }, ?_,
    ⟨by simp [hl], le_refl 0, le_refl 0, ?_⟩, rfl, rfl, ?_⟩
  · simp [hist_init, hw]
  · show (0 : Int) ≤ (cap : Int) - 1; omega
  · show rd (H.hist.set (0 : Int).toNat seed) 0 = some seed
    rw [rd_of_wr hw 0, if_pos rfl]

/-! ## Pushes in a row -/

/-- After `n` pushes of `S 1, ..., S n` onto a history holding only the seed `S 0`, the
window holds the last `min n (cap - 1) + 1` snapshots in order. -/
theorem pushSeq_spec (cap : Nat) (hcap : 2 ≤ cap) (S : Nat → State) (H : History)
    (hv : Valid cap H) (hc : H.cur = 0) (ht : H.top = 0) (hs : rd H.hist 0 = some (S 0)) :
    ∀ n : Nat, ∃ H1, pushSeq cap S H n = some H1 ∧ Valid cap H1 ∧
      H1.top = ((min n (cap - 1) : Nat) : Int) ∧ H1.cur = ((min n (cap - 1) : Nat) : Int) ∧
      ∀ i : Nat, i ≤ min n (cap - 1) →
        rd H1.hist (i : Int) = some (S (i + (n - (cap - 1)))) := by
  intro n
  induction n with
  | zero =>
    refine ⟨H, rfl, hv, by rw [ht]; simp, by rw [hc]; simp, ?_⟩
    intro i hi
    have hi0 : i = 0 := by omega
    subst hi0
    simpa using hs
  | succ n ih =>
    obtain ⟨H1, hp1, hv1, ht1, hc1, he1⟩ := ih
    by_cases hn : n < cap - 1
    · obtain ⟨H2, hp2, hl2, ht2, hc2, hrd2⟩ :=
        hist_push_append cap H1 (S (n + 1)) hv1 (by omega)
      refine ⟨H2, by simp [pushSeq, hp1, hp2], ⟨hl2, by omega, by omega, by omega⟩,
        by omega, by omega, ?_⟩
      intro i hi
      rw [hrd2]
      by_cases hin : (i : Int) = H1.cur + 1
      · have e : i + (n + 1 - (cap - 1)) = n + 1 := by omega
        rw [if_pos hin, e]
      · have e : i + (n + 1 - (cap - 1)) = i + (n - (cap - 1)) := by omega
        rw [if_neg hin, e]
        exact he1 i (by omega)
    · obtain ⟨H2, hp2, hl2, ht2, hc2, hrd2⟩ :=
        hist_push_evict cap H1 (S (n + 1)) hcap hv1 (by omega)
      refine ⟨H2, by simp [pushSeq, hp1, hp2], ⟨hl2, by omega, by omega, by omega⟩,
        by omega, by omega, ?_⟩
      intro i hi
      rw [hrd2]
      by_cases hin : (i : Int) = (cap : Int) - 1
      · have e : i + (n + 1 - (cap - 1)) = n + 1 := by omega
        rw [if_pos hin, e]
      · have hlt : 0 ≤ (i : Int) ∧ (i : Int) < (cap : Int) - 1 := by omega
        have e : i + (n + 1 - (cap - 1)) = (i + 1) + (n - (cap - 1)) := by omega
        have h := he1 (i + 1) (by omega)
        rw [if_neg hin, if_pos hlt, e]
        simpa using h

/-- Undo then redo, from a cursor that is neither 0 nor above `top`: both calls return 1 and
the history is as before. -/
theorem undo_redo_id (H : History) (h0 : 0 < H.cur) (h1 : H.cur ≤ H.top) :
    (hist_undo H).1 = 1 ∧ (hist_redo (hist_undo H).2).1 = 1 ∧
      (hist_redo (hist_undo H).2).2 = H := by
  obtain ⟨hist, top, cu⟩ := H
  simp only at h0 h1
  have hne : cu ≠ 0 := by omega
  have hne2 : cu - 1 ≠ top := by omega
  simp [hist_undo, hist_redo, hne, hne2]

/-- Redo then undo, from a cursor that is not negative and below `top`: both calls return 1
and the history is as before. -/
theorem redo_undo_id (H : History) (h0 : 0 ≤ H.cur) (h1 : H.cur < H.top) :
    (hist_redo H).1 = 1 ∧ (hist_undo (hist_redo H).2).1 = 1 ∧
      (hist_undo (hist_redo H).2).2 = H := by
  obtain ⟨hist, top, cu⟩ := H
  simp only at h0 h1
  have hne : cu ≠ top := by omega
  have hne2 : cu + 1 ≠ 0 := by omega
  simp [hist_undo, hist_redo, hne, hne2]

/-! ## Navigation after a push -/

/-- Undo and redo leave `top` and the array as they are. -/
theorem hist_undo_frame (H : History) :
    (hist_undo H).2.top = H.top ∧ (hist_undo H).2.hist = H.hist := by
  by_cases hc : H.cur = 0 <;> simp [hist_undo, hc]

theorem hist_redo_frame (H : History) :
    (hist_redo H).2.top = H.top ∧ (hist_redo H).2.hist = H.hist := by
  by_cases hc : H.cur = H.top <;> simp [hist_redo, hc]

/-- A sequence of undo / redo calls only keeps the history valid, with the same `top` and
the same array. -/
theorem run_nav (cap : Nat) (ops : List Op) :
    ∀ H : History, (∀ o ∈ ops, o = Op.undo ∨ o = Op.redo) → Valid cap H →
      ∃ H1, run cap H ops = some H1 ∧ Valid cap H1 ∧ H1.top = H.top ∧ H1.hist = H.hist := by
  induction ops with
  | nil => intro H _ hv; exact ⟨H, rfl, hv, rfl, rfl⟩
  | cons o os ih =>
    intro H hall hv
    have hos : ∀ o1 ∈ os, o1 = Op.undo ∨ o1 = Op.redo :=
      fun o1 h1 => hall o1 (List.mem_cons_of_mem o h1)
    rcases hall o (List.mem_cons_self o os) with ho | ho
    · subst ho
      obtain ⟨H2, h2, hv2, ht2, hh2⟩ := ih (hist_undo H).2 hos (hist_undo_valid cap H hv)
      exact ⟨H2, by simp [run, step, h2], hv2, by rw [ht2, (hist_undo_frame H).1],
        by rw [hh2, (hist_undo_frame H).2]⟩
    · subst ho
      obtain ⟨H2, h2, hv2, ht2, hh2⟩ := ih (hist_redo H).2 hos (hist_redo_valid cap H hv)
      exact ⟨H2, by simp [run, step, h2], hv2, by rw [ht2, (hist_redo_frame H).1],
        by rw [hh2, (hist_redo_frame H).2]⟩

/-- After a push from a valid history, every entry at an index `0 .. top` is `next` or an
entry that stood at an index `0 .. cur` before the push. -/
theorem hist_push_entries (cap : Nat) (H : History) (next : State) (hcap : 2 ≤ cap)
    (hv : Valid cap H) :
    ∃ H1, hist_push cap H next = some H1 ∧ Valid cap H1 ∧ H1.cur = H1.top ∧
      ∀ c : Int, 0 ≤ c → c ≤ H1.top →
        ∃ s, rd H1.hist c = some s ∧
          (s = next ∨ ∃ j : Int, 0 ≤ j ∧ j ≤ H.cur ∧ rd H.hist j = some s) := by
  obtain ⟨hl, h0, h1, h2⟩ := hv
  by_cases hc : H.cur < (cap : Int) - 1
  · obtain ⟨H1, hp, hl1, ht1, hc1, hrd⟩ := hist_push_append cap H next ⟨hl, h0, h1, h2⟩ hc
    refine ⟨H1, hp, ⟨hl1, by omega, by omega, by omega⟩, by omega, ?_⟩
    intro c hc0 hct
    by_cases hcn : c = H.cur + 1
    · exact ⟨next, by rw [hrd, if_pos hcn], Or.inl rfl⟩
    · obtain ⟨s, hs⟩ := rd_eq_some_of_lt H.hist c hc0 (by omega)
      exact ⟨s, by rw [hrd, if_neg hcn, hs], Or.inr ⟨c, hc0, by omega, hs⟩⟩
  · have hc2 : H.cur = (cap : Int) - 1 := by omega
    obtain ⟨H1, hp, hl1, ht1, hc1, hrd⟩ :=
      hist_push_evict cap H next hcap ⟨hl, h0, h1, h2⟩ hc2
    refine ⟨H1, hp, ⟨hl1, by omega, by omega, by omega⟩, by omega, ?_⟩
    intro c hc0 hct
    by_cases hcn : c = (cap : Int) - 1
    · exact ⟨next, by rw [hrd, if_pos hcn], Or.inl rfl⟩
    · have hin : 0 ≤ c ∧ c < (cap : Int) - 1 := by omega
      obtain ⟨s, hs⟩ := rd_eq_some_of_lt H.hist (c + 1) (by omega) (by omega)
      exact ⟨s, by rw [hrd, if_neg hcn, if_pos hin, hs],
        Or.inr ⟨c + 1, by omega, by omega, hs⟩⟩

/-! ## The claims -/

/-- C1 (bounds invariant).  On the array of `MAX_HISTORY` entries, `hist_init` with any seed
succeeds, and after it every finite sequence of `hist_push` (with any snapshot), `hist_undo`
and `hist_redo` calls runs without failure and, after each call (every prefix `ops.take k` of
the sequence), the history satisfies `0 ≤ cur ≤ top ≤ MAX_HISTORY - 1`. -/
theorem C1_bounds_invariant (H0 : History) (seed : State) (ops : List Op)
    (hlen : H0.hist.length = MAX_HISTORY) :
    ∃ Hi, hist_init H0 seed = some Hi ∧
      ∀ k : Nat, ∃ H1, run MAX_HISTORY Hi (ops.take k) = some H1 ∧
        0 ≤ H1.cur ∧ H1.cur ≤ H1.top ∧ H1.top ≤ (MAX_HISTORY : Int) - 1 := by
  obtain ⟨Hi, hi, hvi, _⟩ := hist_init_valid MAX_HISTORY (by decide) H0 seed hlen
  refine ⟨Hi, hi, fun k => ?_⟩
  obtain ⟨H1, h1, hv1⟩ := run_valid MAX_HISTORY (by decide) (ops.take k) Hi hvi
  exact ⟨H1, h1, hv1.2⟩

/-- Witness of C1: a history of garbage entries and indices, a seed and three calls. -/
theorem C1_bounds_invariant_witness :
    ∃ Hi, hist_init ⟨List.replicate MAX_HISTORY (sampleState 0), 7, 9⟩ (sampleState 20)
        = some Hi ∧
      ∀ k : Nat, ∃ H1, run MAX_HISTORY Hi
          ([Op.push (sampleState 19), Op.undo, Op.redo].take k) = some H1 ∧
        0 ≤ H1.cur ∧ H1.cur ≤ H1.top ∧ H1.top ≤ (MAX_HISTORY : Int) - 1 :=
  C1_bounds_invariant ⟨List.replicate MAX_HISTORY (sampleState 0), 7, 9⟩ (sampleState 20)
    [Op.push (sampleState 19), Op.undo, Op.redo] (by simp)

/-- C2 (push makes `next` current).  For every history with `0 ≤ cur ≤ top ≤ MAX_HISTORY - 1`
(on the array of `MAX_HISTORY` entries) and every snapshot `next`, `hist_push` succeeds and
afterwards `cur` returns `next`. -/
theorem C2_push_current (H : History) (next : State) (hv : Valid MAX_HISTORY H) :
    ∃ H1, hist_push MAX_HISTORY H next = some H1 ∧ cur H1 = some next := by
  obtain ⟨H1, hp, _, _, hrd⟩ := hist_push_valid MAX_HISTORY H next (by decide) hv
  exact ⟨H1, hp, hrd⟩

/-- Witness of C2: a full history (`cur = top = MAX_HISTORY - 1`, the eviction case). -/
theorem C2_push_current_witness :
    Valid MAX_HISTORY ⟨List.replicate MAX_HISTORY (sampleState 0), 199, 199⟩ ∧
    ∃ H1, hist_push MAX_HISTORY ⟨List.replicate MAX_HISTORY (sampleState 0), 199, 199⟩
        (sampleState 5) = some H1 ∧ cur H1 = some (sampleState 5) :=
  ⟨⟨by simp, by decide, by decide, by decide⟩,
   C2_push_current ⟨List.replicate MAX_HISTORY (sampleState 0), 199, 199⟩ (sampleState 5)
    ⟨by simp, by decide, by decide, by decide⟩⟩

/-- C3 (branch truncation).  First part: for every history with
`0 ≤ cur < top ≤ MAX_HISTORY - 1` and every snapshot `next`, `hist_push` succeeds with
`top' = cur' = cur + 1`, stores `next` at index `cur + 1`, and leaves the entry at every
other index as it was (so the entries `0 .. cur` are unchanged and nothing is shifted or
evicted).  Second part: from entries `E0, E1, E2` at indices `0, 1, 2` with `cur = top = 2`,
two undos followed by a push of `E3` give `top = cur = 1` and the reachable entries
`E0, E3`. -/
theorem C3_branch_truncation :
    (∀ (H : History) (next : State), H.hist.length = MAX_HISTORY → 0 ≤ H.cur →
      H.cur < H.top → H.top ≤ (MAX_HISTORY : Int) - 1 →
      ∃ H1, hist_push MAX_HISTORY H next = some H1 ∧
        H1.top = H.cur + 1 ∧ H1.cur = H.cur + 1 ∧
        (∀ j : Int, 0 ≤ j → j ≤ H.cur → rd H1.hist j = rd H.hist j) ∧
        (∀ j : Int, j ≠ H.cur + 1 → rd H1.hist j = rd H.hist j) ∧
        rd H1.hist (H.cur + 1) = some next) ∧
    (∀ (H : History) (E0 E1 E2 E3 : State), H.hist.length = MAX_HISTORY →
      H.cur = 2 → H.top = 2 →
      rd H.hist 0 = some E0 → rd H.hist 1 = some E1 → rd H.hist 2 = some E2 →
      ∃ H1, run MAX_HISTORY H [Op.undo, Op.undo, Op.push E3] = some H1 ∧
        H1.top = 1 ∧ H1.cur = 1 ∧ rd H1.hist 0 = some E0 ∧ rd H1.hist 1 = some E3) := by
  constructor
  · intro H next hl h0 hlt htop
    obtain ⟨H1, hp, _, ht, hc, hrd⟩ :=
      hist_push_append MAX_HISTORY H next ⟨hl, h0, le_of_lt hlt, htop⟩ (by omega)
    refine ⟨H1, hp, ht, hc, ?_, ?_, ?_⟩
    · intro j _ hj
      have hne : j ≠ H.cur + 1 := by omega
      rw [hrd, if_neg hne]
    · intro j hne
      rw [hrd, if_neg hne]
    · rw [hrd, if_pos rfl]
  · intro H E0 E1 E2 E3 hl hc ht r0 _ _
    obtain ⟨hist, top, cu⟩ := H
    simp only at hl hc ht r0
    subst hc ht
    obtain ⟨H1, hp, _, ht1, hc1, hrd⟩ :=
      hist_push_append MAX_HISTORY ⟨hist, 2, 0⟩ E3
        ⟨hl, by show (0 : Int) ≤ 0; decide, by show (0 : Int) ≤ 2; decide,
          by show (2 : Int) ≤ (MAX_HISTORY : Int) - 1; decide⟩
        (by show (0 : Int) < (MAX_HISTORY : Int) - 1; decide)
    refine ⟨H1, ?_, ?_, ?_, ?_, ?_⟩
    · simp [run, step, hist_undo, hp]
    · simpa using ht1
    · simpa using hc1
    · rw [hrd]; simpa using r0
    · rw [hrd]; simp

set_option maxRecDepth 8000 in
/-- Witness of C3: the general part at `cur = 0 < top = 2`, and the scenario on a history
whose first three entries are the snapshots with life totals 0, 1, 2. -/
theorem C3_branch_truncation_witness :
    (∃ H1, hist_push MAX_HISTORY ⟨List.replicate MAX_HISTORY (sampleState 0), 2, 0⟩
        (sampleState 3) = some H1 ∧
      H1.top = 0 + 1 ∧ H1.cur = 0 + 1 ∧
      (∀ j : Int, 0 ≤ j → j ≤ 0 →
        rd H1.hist j = rd (List.replicate MAX_HISTORY (sampleState 0)) j) ∧
      (∀ j : Int, j ≠ 0 + 1 →
        rd H1.hist j = rd (List.replicate MAX_HISTORY (sampleState 0)) j) ∧
      rd H1.hist (0 + 1) = some (sampleState 3)) ∧
    (∃ H1, run MAX_HISTORY
        ⟨sampleState 0 :: sampleState 1 :: sampleState 2 :: List.replicate 197 (sampleState 9),
          2, 2⟩ [Op.undo, Op.undo, Op.push (sampleState 3)] = some H1 ∧
      H1.top = 1 ∧ H1.cur = 1 ∧ rd H1.hist 0 = some (sampleState 0) ∧
      rd H1.hist 1 = some (sampleState 3)) :=
  ⟨C3_branch_truncation.1 ⟨List.replicate MAX_HISTORY (sampleState 0), 2, 0⟩ (sampleState 3)
      (by simp) (by decide) (by decide) (by decide),
   C3_branch_truncation.2
      ⟨sampleState 0 :: sampleState 1 :: sampleState 2 :: List.replicate 197 (sampleState 9),
        2, 2⟩ (sampleState 0) (sampleState 1) (sampleState 2) (sampleState 3)
      rfl rfl rfl rfl rfl rfl⟩

/-- C4 (eviction at capacity, sliding window).  With `C = MAX_HISTORY`: for every `n`, after
`hist_init` with `S 0` and the pushes of `S 1, ..., S n` (no undo or redo in between), all of
which succeed, `top = cur = min n (C - 1)` and for every `i` in `0 .. top` the entry at index
`i` is `S (i + max 0 (n - (C - 1)))` (the subtraction on naturals is truncated at 0).  In
particular for `n = C` the entry at index 0 is `S 1`, `top = cur = C - 1`, and the seed `S 0`
is gone: when the snapshots are pairwise different, no index in `0 .. top` holds it. -/
theorem C4_sliding_window (H0 : History) (S : Nat → State) (n : Nat)
    (hlen : H0.hist.length = MAX_HISTORY) :
    ∃ Hi H1, hist_init H0 (S 0) = some Hi ∧ pushSeq MAX_HISTORY S Hi n = some H1 ∧
      H1.top = ((min n (MAX_HISTORY - 1) : Nat) : Int) ∧
      H1.cur = ((min n (MAX_HISTORY - 1) : Nat) : Int) ∧
      (∀ i : Nat, i ≤ min n (MAX_HISTORY - 1) →
        rd H1.hist (i : Int) = some (S (i + (n - (MAX_HISTORY - 1))))) ∧
      (n = MAX_HISTORY →
        H1.top = (MAX_HISTORY : Int) - 1 ∧ H1.cur = (MAX_HISTORY : Int) - 1 ∧
        rd H1.hist 0 = some (S 1) ∧
        (Function.Injective S →
          ∀ i : Nat, i ≤ MAX_HISTORY - 1 → rd H1.hist (i : Int) ≠ some (S 0))) := by
  obtain ⟨Hi, hi, hvi, hci, hti, hsi⟩ := hist_init_valid MAX_HISTORY (by decide) H0 (S 0) hlen
  obtain ⟨H1, hp, _, ht, hc, he⟩ := pushSeq_spec MAX_HISTORY (by decide) S Hi hvi hci hti hsi n
  refine ⟨Hi, H1, hi, hp, ht, hc, he, ?_⟩
  intro hn
  subst hn
  refine ⟨by rw [ht]; decide, by rw [hc]; decide, ?_, ?_⟩
  · have h := he 0 (by decide)
    simpa [MAX_HISTORY] using h
  · intro hinj i hi
    have hi2 : i ≤ min MAX_HISTORY (MAX_HISTORY - 1) := by
      have : min MAX_HISTORY (MAX_HISTORY - 1) = MAX_HISTORY - 1 := by decide
      omega
    rw [he i hi2]
    intro heq
    have h0 : i + (MAX_HISTORY - (MAX_HISTORY - 1)) = 0 := hinj (Option.some.inj heq)
    have : MAX_HISTORY - (MAX_HISTORY - 1) = 1 := by decide
    omega

/-- Witness of C4: `MAX_HISTORY` pushes after the seed, the snapshot `S k` having life total
`k`. -/
theorem C4_sliding_window_witness :
    ∃ Hi H1, hist_init ⟨List.replicate MAX_HISTORY (sampleState 0), 0, 0⟩
        ((fun k : Nat => sampleState (k : Int)) 0) = some Hi ∧
      pushSeq MAX_HISTORY (fun k : Nat => sampleState (k : Int)) Hi MAX_HISTORY = some H1 ∧
      H1.top = ((min MAX_HISTORY (MAX_HISTORY - 1) : Nat) : Int) ∧
      H1.cur = ((min MAX_HISTORY (MAX_HISTORY - 1) : Nat) : Int) ∧
      (∀ i : Nat, i ≤ min MAX_HISTORY (MAX_HISTORY - 1) →
        rd H1.hist (i : Int) =
          some ((fun k : Nat => sampleState (k : Int))
            (i + (MAX_HISTORY - (MAX_HISTORY - 1))))) ∧
      (MAX_HISTORY = MAX_HISTORY →
        H1.top = (MAX_HISTORY : Int) - 1 ∧ H1.cur = (MAX_HISTORY : Int) - 1 ∧
        rd H1.hist 0 = some ((fun k : Nat => sampleState (k : Int)) 1) ∧
        (Function.Injective (fun k : Nat => sampleState (k : Int)) →
          ∀ i : Nat, i ≤ MAX_HISTORY - 1 →
            rd H1.hist (i : Int) ≠ some ((fun k : Nat => sampleState (k : Int)) 0))) :=
  C4_sliding_window ⟨List.replicate MAX_HISTORY (sampleState 0), 0, 0⟩
    (fun k : Nat => sampleState (k : Int)) MAX_HISTORY (by simp)

/-- C5 (undo/redo round trip).  First part: for every state produced by `hist_push` from a
history with `0 ≤ cur ≤ top ≤ MAX_HISTORY - 1`, `hist_undo` followed by `hist_redo` both
return 1 and give back the very same history: same `cur`, same `top`, same entries, hence the
same current snapshot (which is `next`).  Second part: for every valid history with
`cur > 0`, undo-then-redo is the identity on the whole history (both calls returning 1).
Third part: for every valid history with `cur < top`, redo-then-undo is the identity (both
calls returning 1). -/
theorem C5_undo_redo_round_trip :
    (∀ (H : History) (next : State), Valid MAX_HISTORY H →
      ∃ H1, hist_push MAX_HISTORY H next = some H1 ∧
        (hist_undo H1).1 = 1 ∧ (hist_redo (hist_undo H1).2).1 = 1 ∧
        (hist_redo (hist_undo H1).2).2 = H1 ∧
        cur (hist_redo (hist_undo H1).2).2 = some next) ∧
    (∀ H : History, Valid MAX_HISTORY H → 0 < H.cur →
      (hist_undo H).1 = 1 ∧ (hist_redo (hist_undo H).2).1 = 1 ∧
        (hist_redo (hist_undo H).2).2 = H) ∧
    (∀ H : History, Valid MAX_HISTORY H → H.cur < H.top →
      (hist_redo H).1 = 1 ∧ (hist_undo (hist_redo H).2).1 = 1 ∧
        (hist_undo (hist_redo H).2).2 = H) := by
  refine ⟨?_, ?_, ?_⟩
  · intro H next hv
    obtain ⟨H1, hp, hv1, hct, hrd⟩ := hist_push_valid MAX_HISTORY H next (by decide) hv
    have hpos : 0 < H1.cur := by
      by_cases hc : H.cur < (MAX_HISTORY : Int) - 1
      · obtain ⟨H2, hp2, _, _, hc2, _⟩ := hist_push_append MAX_HISTORY H next hv hc
        have h12 : H1 = H2 := Option.some.inj (hp.symm.trans hp2)
        have := hv.2.1
        rw [h12, hc2]; omega
      · have hc2 : H.cur = (MAX_HISTORY : Int) - 1 := by
          have := hv.2.2.1; have := hv.2.2.2; omega
        obtain ⟨H2, hp2, _, _, hc3, _⟩ :=
          hist_push_evict MAX_HISTORY H next (by decide) hv hc2
        have h12 : H1 = H2 := Option.some.inj (hp.symm.trans hp2)
        rw [h12, hc3]; decide
    obtain ⟨r1, r2, r3⟩ := undo_redo_id H1 hpos (le_of_eq hct)
    exact ⟨H1, hp, r1, r2, r3, by rw [r3]; exact hrd⟩
  · intro H hv hpos
    exact undo_redo_id H hpos hv.2.2.1
  · intro H hv hlt
    exact redo_undo_id H hv.2.1 hlt

/-- Witness of C5: a push onto a fresh history, a history with `cur = 2 > 0`, and a history
with `cur = 2 < top = 3`. -/
theorem C5_undo_redo_round_trip_witness :
    (∃ H1, hist_push MAX_HISTORY ⟨List.replicate MAX_HISTORY (sampleState 0), 0, 0⟩
        (sampleState 1) = some H1 ∧
      (hist_undo H1).1 = 1 ∧ (hist_redo (hist_undo H1).2).1 = 1 ∧
      (hist_redo (hist_undo H1).2).2 = H1 ∧
      cur (hist_redo (hist_undo H1).2).2 = some (sampleState 1)) ∧
    ((hist_undo ⟨List.replicate MAX_HISTORY (sampleState 0), 3, 2⟩).1 = 1 ∧
      (hist_redo (hist_undo ⟨List.replicate MAX_HISTORY (sampleState 0), 3, 2⟩).2).1 = 1 ∧
      (hist_redo (hist_undo ⟨List.replicate MAX_HISTORY (sampleState 0), 3, 2⟩).2).2
        = ⟨List.replicate MAX_HISTORY (sampleState 0), 3, 2⟩) ∧
    ((hist_redo ⟨List.replicate MAX_HISTORY (sampleState 0), 3, 2⟩).1 = 1 ∧
      (hist_undo (hist_redo ⟨List.replicate MAX_HISTORY (sampleState 0), 3, 2⟩).2).1 = 1 ∧
      (hist_undo (hist_redo ⟨List.replicate MAX_HISTORY (sampleState 0), 3, 2⟩).2).2
        = ⟨List.replicate MAX_HISTORY (sampleState 0), 3, 2⟩) :=
  ⟨C5_undo_redo_round_trip.1 ⟨List.replicate MAX_HISTORY (sampleState 0), 0, 0⟩ (sampleState 1)
      ⟨by simp, by decide, by decide, by decide⟩,
   C5_undo_redo_round_trip.2.1 ⟨List.replicate MAX_HISTORY (sampleState 0), 3, 2⟩
      ⟨by simp, by decide, by decide, by decide⟩ (by decide),
   C5_undo_redo_round_trip.2.2 ⟨List.replicate MAX_HISTORY (sampleState 0), 3, 2⟩
      ⟨by simp, by decide, by decide, by decide⟩ (by decide)⟩

/-- C6 (boundary no-ops are reported and atomic).  For every history: `hist_undo` returns 0
if and only if `cur = 0` on entry, and then the history (`cur`, `top`, every entry) is
unchanged; `hist_redo` returns 0 if and only if `cur = top` on entry, and then the history
is unchanged; in every other case the call returns 1. -/
theorem C6_boundary_noops (H : History) :
    ((hist_undo H).1 = 0 ↔ H.cur = 0) ∧
    (H.cur = 0 → (hist_undo H).2 = H) ∧
    (H.cur ≠ 0 → (hist_undo H).1 = 1) ∧
    ((hist_redo H).1 = 0 ↔ H.cur = H.top) ∧
    (H.cur = H.top → (hist_redo H).2 = H) ∧
    (H.cur ≠ H.top → (hist_redo H).1 = 1) := by
  refine ⟨?_, ?_, ?_, ?_, ?_, ?_⟩
  · by_cases hc : H.cur = 0 <;> simp [hist_undo, hc]
  · intro hc; simp [hist_undo, hc]
  · intro hc; simp [hist_undo, hc]
  · by_cases hc : H.cur = H.top <;> simp [hist_redo, hc]
  · intro hc; simp [hist_redo, hc]
  · intro hc; simp [hist_redo, hc]

/-- Witness of C6: undo at `cur = 0` and redo at `cur = top = 0` are reported no-ops; on a
history with `cur = 1`, `top = 2` both return 1. -/
theorem C6_boundary_noops_witness :
    (hist_undo ⟨List.replicate MAX_HISTORY (sampleState 0), 0, 0⟩).1 = 0 ∧
    (hist_undo ⟨List.replicate MAX_HISTORY (sampleState 0), 0, 0⟩).2
      = ⟨List.replicate MAX_HISTORY (sampleState 0), 0, 0⟩ ∧
    (hist_redo ⟨List.replicate MAX_HISTORY (sampleState 0), 0, 0⟩).1 = 0 ∧
    (hist_redo ⟨List.replicate MAX_HISTORY (sampleState 0), 0, 0⟩).2
      = ⟨List.replicate MAX_HISTORY (sampleState 0), 0, 0⟩ ∧
    (hist_undo ⟨List.replicate MAX_HISTORY (sampleState 0), 2, 1⟩).1 = 1 ∧
    (hist_redo ⟨List.replicate MAX_HISTORY (sampleState 0), 2, 1⟩).1 = 1 :=
  ⟨(C6_boundary_noops ⟨List.replicate MAX_HISTORY (sampleState 0), 0, 0⟩).1.mpr rfl,
   (C6_boundary_noops ⟨List.replicate MAX_HISTORY (sampleState 0), 0, 0⟩).2.1 rfl,
   (C6_boundary_noops ⟨List.replicate MAX_HISTORY (sampleState 0), 0, 0⟩).2.2.2.1.mpr rfl,
   (C6_boundary_noops ⟨List.replicate MAX_HISTORY (sampleState 0), 0, 0⟩).2.2.2.2.1 rfl,
   (C6_boundary_noops ⟨List.replicate MAX_HISTORY (sampleState 0), 2, 1⟩).2.2.1 (by decide),
   (C6_boundary_noops ⟨List.replicate MAX_HISTORY (sampleState 0), 2, 1⟩).2.2.2.2.2
      (by decide)⟩

/-- After a successful undo on a history within its bounds, the entry that was current is
still stored right above the new cursor, at an index `≤ top`. -/
theorem undo_still_stored (cap : Nat) (H : History) (hv : Valid cap H)
    (h1 : (hist_undo H).1 = 1) :
    (hist_undo H).2.cur + 1 ≤ (hist_undo H).2.top ∧
      ∃ s, cur H = some s ∧
        rd (hist_undo H).2.hist ((hist_undo H).2.cur + 1) = some s := by
  obtain ⟨hl, h0, hct, h2⟩ := hv
  obtain ⟨s, hs⟩ := rd_eq_some_of_lt H.hist H.cur h0 (by omega)
  by_cases hc : H.cur = 0
  · simp [hist_undo, hc] at h1
  · have e : H.cur - 1 + 1 = H.cur := by omega
    simp only [hist_undo, if_neg hc, e]
    exact ⟨hct, s, hs, hs⟩

/-- C7 (frame of undo/redo).  For every history value, `hist_undo` and `hist_redo` never
change `top` or the array of entries, and when they succeed (return 1) they change `cur` by
exactly one (undo: `cur' = cur - 1`, redo: `cur' = cur + 1`), so the entry that was current
before a successful undo is the entry at index `cur' + 1`.  On every history the program
holds, that is with `0 ≤ cur ≤ top ≤ MAX_HISTORY - 1`, and in particular on every history
reached from `hist_init` by any sequence of calls, after a successful undo that entry is
still stored at the index `cur' + 1 ≤ top`. -/
theorem C7_frame_undo_redo (H : History) :
    (hist_undo H).2.top = H.top ∧ (hist_undo H).2.hist = H.hist ∧
    (hist_redo H).2.top = H.top ∧ (hist_redo H).2.hist = H.hist ∧
    ((hist_undo H).1 = 1 → (hist_undo H).2.cur = H.cur - 1) ∧
    ((hist_redo H).1 = 1 → (hist_redo H).2.cur = H.cur + 1) ∧
    ((hist_undo H).1 = 1 →
      rd (hist_undo H).2.hist ((hist_undo H).2.cur + 1) = rd H.hist H.cur) ∧
    (Valid MAX_HISTORY H → (hist_undo H).1 = 1 →
      (hist_undo H).2.cur + 1 ≤ (hist_undo H).2.top ∧
      ∃ s, cur H = some s ∧
        rd (hist_undo H).2.hist ((hist_undo H).2.cur + 1) = some s) ∧
    (∀ (H0 : History) (seed : State) (ops : List Op), H0.hist.length = MAX_HISTORY →
      ∃ Hi H1, hist_init H0 seed = some Hi ∧ run MAX_HISTORY Hi ops = some H1 ∧
        ((hist_undo H1).1 = 1 →
          (hist_undo H1).2.cur + 1 ≤ (hist_undo H1).2.top ∧
          ∃ s, cur H1 = some s ∧
            rd (hist_undo H1).2.hist ((hist_undo H1).2.cur + 1) = some s)) := by
  refine ⟨?_, ?_, ?_, ?_, ?_, ?_, ?_, ?_, ?_⟩
  · by_cases hc : H.cur = 0 <;> simp [hist_undo, hc]
  · by_cases hc : H.cur = 0 <;> simp [hist_undo, hc]
  · by_cases hc : H.cur = H.top <;> simp [hist_redo, hc]
  · by_cases hc : H.cur = H.top <;> simp [hist_redo, hc]
  · by_cases hc : H.cur = 0 <;> simp [hist_undo, hc]
  · by_cases hc : H.cur = H.top <;> simp [hist_redo, hc]
  · by_cases hc : H.cur = 0 <;> simp [hist_undo, hc]
  · intro hv h1
    exact undo_still_stored MAX_HISTORY H hv h1
  · intro H0 seed ops hlen
    obtain ⟨Hi, hi, hvi, _⟩ := hist_init_valid MAX_HISTORY (by decide) H0 seed hlen
    obtain ⟨H1, hr, hv1⟩ := run_valid MAX_HISTORY (by decide) ops Hi hvi
    exact ⟨Hi, H1, hi, hr, fun h1 => undo_still_stored MAX_HISTORY H1 hv1 h1⟩

/-- Witness of C7: a successful undo and redo on the history with `cur = 2`, `top = 3`. -/
theorem C7_frame_undo_redo_witness :
    Valid MAX_HISTORY ⟨List.replicate MAX_HISTORY (sampleState 0), 3, 2⟩ ∧
    (hist_undo ⟨List.replicate MAX_HISTORY (sampleState 0), 3, 2⟩).1 = 1 ∧
    (hist_undo ⟨List.replicate MAX_HISTORY (sampleState 0), 3, 2⟩).2.cur = 2 - 1 ∧
    (hist_redo ⟨List.replicate MAX_HISTORY (sampleState 0), 3, 2⟩).2.cur = 2 + 1 ∧
    rd (hist_undo ⟨List.replicate MAX_HISTORY (sampleState 0), 3, 2⟩).2.hist
        ((hist_undo ⟨List.replicate MAX_HISTORY (sampleState 0), 3, 2⟩).2.cur + 1)
      = rd (List.replicate MAX_HISTORY (sampleState 0)) 2 ∧
    ((hist_undo ⟨List.replicate MAX_HISTORY (sampleState 0), 3, 2⟩).2.cur + 1
        ≤ (hist_undo ⟨List.replicate MAX_HISTORY (sampleState 0), 3, 2⟩).2.top ∧
      ∃ s, cur ⟨List.replicate MAX_HISTORY (sampleState 0), 3, 2⟩ = some s ∧
        rd (hist_undo ⟨List.replicate MAX_HISTORY (sampleState 0), 3, 2⟩).2.hist
          ((hist_undo ⟨List.replicate MAX_HISTORY (sampleState 0), 3, 2⟩).2.cur + 1)
          = some s) :=
  ⟨⟨by simp, by decide, by decide, by decide⟩, rfl,
   (C7_frame_undo_redo ⟨List.replicate MAX_HISTORY (sampleState 0), 3, 2⟩).2.2.2.2.1 rfl,
   (C7_frame_undo_redo ⟨List.replicate MAX_HISTORY (sampleState 0), 3, 2⟩).2.2.2.2.2.1 rfl,
   (C7_frame_undo_redo ⟨List.replicate MAX_HISTORY (sampleState 0), 3, 2⟩).2.2.2.2.2.2.1 rfl,
   (C7_frame_undo_redo ⟨List.replicate MAX_HISTORY (sampleState 0), 3, 2⟩).2.2.2.2.2.2.2.1
      ⟨by simp, by decide, by decide, by decide⟩ rfl⟩

/-- C8 (a discarded future is never recovered).  For every history with
`0 ≤ cur ≤ top ≤ MAX_HISTORY - 1` and every snapshot `next`, `hist_push` succeeds and leaves
`cur = top`, so an immediate `hist_redo` returns 0 and changes nothing; and after every
subsequent sequence of `hist_undo` / `hist_redo` calls only, `top` and the array are still
those set by the push, `0 ≤ cur ≤ top`, and the current snapshot is the entry at an index
`0 .. top` as it was right after the push: it is `next` or an entry that stood at an index
`0 .. cur` before the push, never one taken from above the old cursor. -/
theorem C8_discarded_future (H : History) (next : State) (hv : Valid MAX_HISTORY H) :
    ∃ H1, hist_push MAX_HISTORY H next = some H1 ∧ H1.cur = H1.top ∧
      (hist_redo H1).1 = 0 ∧ (hist_redo H1).2 = H1 ∧
      ∀ ops : List Op, (∀ o ∈ ops, o = Op.undo ∨ o = Op.redo) →
        ∃ H2, run MAX_HISTORY H1 ops = some H2 ∧ H2.top = H1.top ∧ H2.hist = H1.hist ∧
          0 ≤ H2.cur ∧ H2.cur ≤ H1.top ∧
          ∃ s, cur H2 = some s ∧ rd H1.hist H2.cur = some s ∧
            (s = next ∨ ∃ j : Int, 0 ≤ j ∧ j ≤ H.cur ∧ rd H.hist j = some s) := by
  obtain ⟨H1, hp, hv1, hct, hent⟩ := hist_push_entries MAX_HISTORY H next (by decide) hv
  refine ⟨H1, hp, hct, by simp [hist_redo, hct], by simp [hist_redo, hct], ?_⟩
  intro ops hall
  obtain ⟨H2, hr, hv2, ht2, hh2⟩ := run_nav MAX_HISTORY ops H1 hall hv1
  have hle : H2.cur ≤ H1.top := by have := hv2.2.2.1; omega
  obtain ⟨s, hs, hor⟩ := hent H2.cur hv2.2.1 hle
  exact ⟨H2, hr, ht2, hh2, hv2.2.1, hle, s, by unfold cur; rw [hh2]; exact hs, hs, hor⟩

/-- Witness of C8: a push after two undos (`cur = 1 < top = 3`), the discarded entries being
those at indices 2 and 3. -/
theorem C8_discarded_future_witness :
    Valid MAX_HISTORY ⟨List.replicate MAX_HISTORY (sampleState 0), 3, 1⟩ ∧
    ∃ H1, hist_push MAX_HISTORY ⟨List.replicate MAX_HISTORY (sampleState 0), 3, 1⟩
        (sampleState 7) = some H1 ∧ H1.cur = H1.top ∧
      (hist_redo H1).1 = 0 ∧ (hist_redo H1).2 = H1 ∧
      ∀ ops : List Op, (∀ o ∈ ops, o = Op.undo ∨ o = Op.redo) →
        ∃ H2, run MAX_HISTORY H1 ops = some H2 ∧ H2.top = H1.top ∧ H2.hist = H1.hist ∧
          0 ≤ H2.cur ∧ H2.cur ≤ H1.top ∧
          ∃ s, cur H2 = some s ∧ rd H1.hist H2.cur = some s ∧
            (s = sampleState 7 ∨ ∃ j : Int, 0 ≤ j ∧ j ≤ 1 ∧
              rd (List.replicate MAX_HISTORY (sampleState 0)) j = some s) :=
  ⟨⟨by simp, by decide, by decide, by decide⟩,
   C8_discarded_future ⟨List.replicate MAX_HISTORY (sampleState 0), 3, 1⟩ (sampleState 7)
    ⟨by simp, by decide, by decide, by decide⟩⟩

/-- C9 (single-step eviction).  For every history with `cur = top = MAX_HISTORY - 1` and
every snapshot `next`, `hist_push` succeeds with `top' = cur' = MAX_HISTORY - 1`; for every
`i` in `0 .. MAX_HISTORY - 2` the new entry at index `i` is the old entry at index `i + 1`
(the old entry at index 0 is dropped and the order of the others is kept), and the entry at
index `MAX_HISTORY - 1` is `next`. -/
theorem C9_single_step_eviction (H : History) (next : State)
    (hl : H.hist.length = MAX_HISTORY) (hc : H.cur = (MAX_HISTORY : Int) - 1)
    (ht : H.top = (MAX_HISTORY : Int) - 1) :
    ∃ H1, hist_push MAX_HISTORY H next = some H1 ∧
      H1.top = (MAX_HISTORY : Int) - 1 ∧ H1.cur = (MAX_HISTORY : Int) - 1 ∧
      (∀ i : Int, 0 ≤ i → i ≤ (MAX_HISTORY : Int) - 2 →
        ∃ s, rd H.hist (i + 1) = some s ∧ rd H1.hist i = some s) ∧
      rd H1.hist ((MAX_HISTORY : Int) - 1) = some next := by
  have hv : Valid MAX_HISTORY H := ⟨hl, by rw [hc]; decide, by omega, by omega⟩
  obtain ⟨H1, hp, _, ht1, hc1, hrd⟩ := hist_push_evict MAX_HISTORY H next (by decide) hv hc
  refine ⟨H1, hp, ht1, hc1, ?_, by rw [hrd, if_pos rfl]⟩
  intro i hi0 hi1
  obtain ⟨s, hs⟩ := rd_eq_some_of_lt H.hist (i + 1) (by omega) (by rw [hl]; omega)
  have hne : i ≠ (MAX_HISTORY : Int) - 1 := by omega
  have hin : 0 ≤ i ∧ i < (MAX_HISTORY : Int) - 1 := by omega
  exact ⟨s, hs, by rw [hrd, if_neg hne, if_pos hin, hs]⟩

/-- Witness of C9: the full history whose entry at index `k` has life total `k`. -/
theorem C9_single_step_eviction_witness :
    ∃ H1, hist_push MAX_HISTORY
        ⟨List.map (fun k : Nat => sampleState (Int.ofNat k)) (List.range MAX_HISTORY), 199, 199⟩
        (sampleState 200) = some H1 ∧
      H1.top = (MAX_HISTORY : Int) - 1 ∧ H1.cur = (MAX_HISTORY : Int) - 1 ∧
      (∀ i : Int, 0 ≤ i → i ≤ (MAX_HISTORY : Int) - 2 →
        ∃ s, rd (List.map (fun k : Nat => sampleState (Int.ofNat k)) (List.range MAX_HISTORY)) (i + 1)
            = some s ∧ rd H1.hist i = some s) ∧
      rd H1.hist ((MAX_HISTORY : Int) - 1) = some (sampleState 200) :=
  C9_single_step_eviction
    ⟨List.map (fun k : Nat => sampleState (Int.ofNat k)) (List.range MAX_HISTORY), 199, 199⟩
    (sampleState 200) (by simp) (by decide) (by decide)

/-- C10 (concrete scenario, capacity 4).  With 4 for `MAX_HISTORY` on an array of 4 entries:
`hist_init` with `S0` and the pushes of `S1, S2, S3` give `cur = top = 3` and the entries
`S0, S1, S2, S3`; the push of `S4` gives the entries `S1, S2, S3, S4` with `cur = top = 3`;
two undos (each returning 1) give `cur = 1` with current snapshot `S2`; the push of `S5`
gives `top = cur = 2` and the entries `S1, S2, S5` at indices `0 .. 2`, while index 3 still
holds `S4` but lies above `top`. -/
theorem C10_concrete_scenario (H0 : History) (S0 S1 S2 S3 S4 S5 : State)
    (hlen : H0.hist.length = 4) :
    ∃ Hi A B C D,
      hist_init H0 S0 = some Hi ∧
      run 4 Hi [Op.push S1, Op.push S2, Op.push S3] = some A ∧
      A.cur = 3 ∧ A.top = 3 ∧ A.hist = [S0, S1, S2, S3] ∧
      hist_push 4 A S4 = some B ∧
      B.hist = [S1, S2, S3, S4] ∧ B.cur = 3 ∧ B.top = 3 ∧
      (hist_undo B).1 = 1 ∧ (hist_undo (hist_undo B).2).1 = 1 ∧
      run 4 B [Op.undo, Op.undo] = some C ∧
      C.cur = 1 ∧ cur C = some S2 ∧
      hist_push 4 C S5 = some D ∧
      D.top = 2 ∧ D.cur = 2 ∧
      rd D.hist 0 = some S1 ∧ rd D.hist 1 = some S2 ∧ rd D.hist 2 = some S5 ∧
      rd D.hist 3 = some S4 ∧ D.top < 3 ∧ D.hist = [S1, S2, S5, S4] := by
  obtain ⟨hist, top, cu⟩ := H0
  simp only at hlen
  match hist, hlen with
  | [a, b, c, d], _ =>
    exact ⟨⟨[S0, b, c, d], 0, 0⟩, ⟨[S0, S1, S2, S3], 3, 3⟩, ⟨[S1, S2, S3, S4], 3, 3⟩,
      ⟨[S1, S2, S3, S4], 3, 1⟩, ⟨[S1, S2, S5, S4], 2, 2⟩,
      rfl, rfl, rfl, rfl, rfl, rfl, rfl, rfl, rfl, rfl, rfl, rfl, rfl, rfl, rfl, rfl, rfl,
      rfl, rfl, rfl, rfl, by show (2 : Int) < 3; decide, rfl⟩

/-- Witness of C10: the snapshots `S k` with life total `k` on an array of four stale
entries. -/
theorem C10_concrete_scenario_witness :
    ∃ Hi A B C D,
      hist_init ⟨List.replicate 4 (sampleState 9), 8, 5⟩ (sampleState 0) = some Hi ∧
      run 4 Hi [Op.push (sampleState 1), Op.push (sampleState 2), Op.push (sampleState 3)]
        = some A ∧
      A.cur = 3 ∧ A.top = 3 ∧
      A.hist = [sampleState 0, sampleState 1, sampleState 2, sampleState 3] ∧
      hist_push 4 A (sampleState 4) = some B ∧
      B.hist = [sampleState 1, sampleState 2, sampleState 3, sampleState 4] ∧
      B.cur = 3 ∧ B.top = 3 ∧
      (hist_undo B).1 = 1 ∧ (hist_undo (hist_undo B).2).1 = 1 ∧
      run 4 B [Op.undo, Op.undo] = some C ∧
      C.cur = 1 ∧ cur C = some (sampleState 2) ∧
      hist_push 4 C (sampleState 5) = some D ∧
      D.top = 2 ∧ D.cur = 2 ∧
      rd D.hist 0 = some (sampleState 1) ∧ rd D.hist 1 = some (sampleState 2) ∧
      rd D.hist 2 = some (sampleState 5) ∧
      rd D.hist 3 = some (sampleState 4) ∧ D.top < 3 ∧
      D.hist = [sampleState 1, sampleState 2, sampleState 5, sampleState 4] :=
  C10_concrete_scenario ⟨List.replicate 4 (sampleState 9), 8, 5⟩ (sampleState 0)
    (sampleState 1) (sampleState 2) (sampleState 3) (sampleState 4) (sampleState 5) rfl

/-! ## Stale entries are not observable -/

theorem cur_agree (cap : Nat) (H K : History) (hv : Valid cap H) (ha : Agree H K) :
    cur H = cur K := by
  unfold cur
  rw [← ha.1]
  exact ha.2.2 H.cur hv.2.1 hv.2.2.1

theorem hist_undo_agree (H K : History) (ha : Agree H K) :
    (hist_undo H).1 = (hist_undo K).1 ∧ Agree (hist_undo H).2 (hist_undo K).2 := by
  obtain ⟨hc, ht, he⟩ := ha
  unfold hist_undo
  by_cases h0 : H.cur = 0
  · have h0k : K.cur = 0 := by omega
    simp only [if_pos h0, if_pos h0k]
    exact ⟨trivial, hc, ht, he⟩
  · have h0k : ¬ K.cur = 0 := by omega
    simp only [if_neg h0, if_neg h0k]
    exact ⟨trivial, by show H.cur - 1 = K.cur - 1; omega, ht, he⟩

theorem hist_redo_agree (H K : History) (ha : Agree H K) :
    (hist_redo H).1 = (hist_redo K).1 ∧ Agree (hist_redo H).2 (hist_redo K).2 := by
  obtain ⟨hc, ht, he⟩ := ha
  unfold hist_redo
  by_cases h0 : H.cur = H.top
  · have h0k : K.cur = K.top := by omega
    simp only [if_pos h0, if_pos h0k]
    exact ⟨trivial, hc, ht, he⟩
  · have h0k : ¬ K.cur = K.top := by omega
    simp only [if_neg h0, if_neg h0k]
    exact ⟨trivial, by show H.cur + 1 = K.cur + 1; omega, ht, he⟩

theorem hist_push_agree (cap : Nat) (hcap : 2 ≤ cap) (H K : History) (next : State)
    (hv : Valid cap H) (hk : Valid cap K) (ha : Agree H K) :
    ∃ H1 K1, hist_push cap H next = some H1 ∧ hist_push cap K next = some K1 ∧
      Valid cap H1 ∧ Valid cap K1 ∧ Agree H1 K1 := by
  obtain ⟨hc, ht, he⟩ := ha
  have hv0 := hv.2.1
  have hv1 := hv.2.2.1
  have hv2 := hv.2.2.2
  by_cases hlt : H.cur < (cap : Int) - 1
  · obtain ⟨H1, hp, hl1, ht1, hc1, hrd1⟩ := hist_push_append cap H next hv hlt
    obtain ⟨K1, kp, kl1, kt1, kc1, krd1⟩ := hist_push_append cap K next hk (by omega)
    refine ⟨H1, K1, hp, kp, ⟨hl1, by omega, by omega, by omega⟩,
      ⟨kl1, by omega, by omega, by omega⟩, by omega, by omega, ?_⟩
    intro j hj0 hj1
    rw [hrd1, krd1]
    by_cases hj : j = H.cur + 1
    · have hjk : j = K.cur + 1 := by omega
      rw [if_pos hj, if_pos hjk]
    · have hjk : ¬ j = K.cur + 1 := by omega
      rw [if_neg hj, if_neg hjk]
      exact he j hj0 (by omega)
  · have hce : H.cur = (cap : Int) - 1 := by omega
    obtain ⟨H1, hp, hl1, ht1, hc1, hrd1⟩ := hist_push_evict cap H next hcap hv hce
    obtain ⟨K1, kp, kl1, kt1, kc1, krd1⟩ := hist_push_evict cap K next hcap hk (by omega)
    refine ⟨H1, K1, hp, kp, ⟨hl1, by omega, by omega, by omega⟩,
      ⟨kl1, by omega, by omega, by omega⟩, by omega, by omega, ?_⟩
    intro j hj0 hj1
    rw [hrd1, krd1]
    by_cases hj : j = (cap : Int) - 1
    · rw [if_pos hj, if_pos hj]
    · have hin : 0 ≤ j ∧ j < (cap : Int) - 1 := by omega
      rw [if_neg hj, if_neg hj, if_pos hin, if_pos hin]
      exact he (j + 1) (by omega) (by omega)

theorem obsRun_agree (cap : Nat) (hcap : 2 ≤ cap) (ops : List Op) :
    ∀ H K : History, Valid cap H → Valid cap K → Agree H K →
      ∃ tr H1 K1, obsRun cap H ops = some (tr, H1) ∧ obsRun cap K ops = some (tr, K1) ∧
        tr.length = ops.length ∧ Valid cap H1 ∧ Valid cap K1 ∧ Agree H1 K1 := by
  induction ops with
  | nil => intro H K hv hk ha; exact ⟨[], H, K, rfl, rfl, rfl, hv, hk, ha⟩
  | cons o os ih =>
    intro H K hv hk ha
    cases o with
    | push s =>
      obtain ⟨H1, K1, hp, kp, hv1, hk1, ha1⟩ := hist_push_agree cap hcap H K s hv hk ha
      obtain ⟨tr, H2, K2, h2, k2, hlen, hv2, hk2, ha2⟩ := ih H1 K1 hv1 hk1 ha1
      refine ⟨(0, cur H1) :: tr, H2, K2, ?_, ?_, by simp [hlen], hv2, hk2, ha2⟩
      · simp [obsRun, stepObs, hp, h2]
      · simp [obsRun, stepObs, kp, k2, cur_agree cap H1 K1 hv1 ha1]
    | undo =>
      obtain ⟨hr, ha1⟩ := hist_undo_agree H K ha
      have hv1 := hist_undo_valid cap H hv
      have hk1 := hist_undo_valid cap K hk
      obtain ⟨tr, H2, K2, h2, k2, hlen, hv2, hk2, ha2⟩ := ih _ _ hv1 hk1 ha1
      refine ⟨((hist_undo H).1, cur (hist_undo H).2) :: tr, H2, K2, ?_, ?_, by simp [hlen],
        hv2, hk2, ha2⟩
      · simp [obsRun, stepObs, h2]
      · simp [obsRun, stepObs, k2, hr, cur_agree cap _ _ hv1 ha1]
    | redo =>
      obtain ⟨hr, ha1⟩ := hist_redo_agree H K ha
      have hv1 := hist_redo_valid cap H hv
      have hk1 := hist_redo_valid cap K hk
      obtain ⟨tr, H2, K2, h2, k2, hlen, hv2, hk2, ha2⟩ := ih _ _ hv1 hk1 ha1
      refine ⟨((hist_redo H).1, cur (hist_redo H).2) :: tr, H2, K2, ?_, ?_, by simp [hlen],
        hv2, hk2, ha2⟩
      · simp [obsRun, stepObs, h2]
      · simp [obsRun, stepObs, k2, hr, cur_agree cap _ _ hv1 ha1]

/-- C12 (stale entries are never read).  First part: for any two histories with
`0 ≤ cur ≤ top ≤ MAX_HISTORY - 1` that have the same `cur`, the same `top` and the same
entries at the indices `0 .. top`, whatever the entries above `top`, every sequence of
`hist_push` / `hist_undo` / `hist_redo` calls with the same arguments runs on both, gives
the same trace (the return value and the snapshot returned by `cur` after each call), and
leaves two histories that agree again on `cur`, `top` and the entries `0 .. top`.  Second
part: after `hist_init` with the same seed on two histories of arbitrary prior contents and
indices (one of them may be a fresh one), `cur` returns the same snapshot and every sequence
of calls gives the same trace. -/
theorem C12_stale_entries_not_read :
    (∀ (H K : History) (ops : List Op), Valid MAX_HISTORY H → Valid MAX_HISTORY K →
      Agree H K →
      ∃ tr H1 K1, obsRun MAX_HISTORY H ops = some (tr, H1) ∧
        obsRun MAX_HISTORY K ops = some (tr, K1) ∧ tr.length = ops.length ∧ Agree H1 K1) ∧
    (∀ (H0 K0 : History) (seed : State) (ops : List Op), H0.hist.length = MAX_HISTORY →
      K0.hist.length = MAX_HISTORY →
      ∃ Hi Ki tr H1 K1, hist_init H0 seed = some Hi ∧ hist_init K0 seed = some Ki ∧
        cur Hi = some seed ∧ cur Ki = some seed ∧
        obsRun MAX_HISTORY Hi ops = some (tr, H1) ∧
        obsRun MAX_HISTORY Ki ops = some (tr, K1) ∧ tr.length = ops.length ∧
        Agree H1 K1) := by
  constructor
  · intro H K ops hv hk ha
    obtain ⟨tr, H1, K1, h1, k1, hlen, _, _, ha1⟩ :=
      obsRun_agree MAX_HISTORY (by decide) ops H K hv hk ha
    exact ⟨tr, H1, K1, h1, k1, hlen, ha1⟩
  · intro H0 K0 seed ops hl kl
    obtain ⟨Hi, hi, hvi, hci, hti, hsi⟩ := hist_init_valid MAX_HISTORY (by decide) H0 seed hl
    obtain ⟨Ki, ki, kvi, kci, kti, ksi⟩ := hist_init_valid MAX_HISTORY (by decide) K0 seed kl
    have ha : Agree Hi Ki := by
      refine ⟨by omega, by omega, ?_⟩
      intro j hj0 hj1
      have hj : j = 0 := by omega
      subst hj
      rw [hsi, ksi]
    obtain ⟨tr, H1, K1, h1, k1, hlen, _, _, ha1⟩ :=
      obsRun_agree MAX_HISTORY (by decide) ops Hi Ki hvi kvi ha
    refine ⟨Hi, Ki, tr, H1, K1, hi, ki, ?_, ?_, h1, k1, hlen, ha1⟩
    · unfold cur; rw [hci]; exact hsi
    · unfold cur; rw [kci]; exact ksi

set_option maxRecDepth 8000 in
/-- Witness of C12: two histories with the entries `S 0, S 1` at indices `0, 1`,
`cur = top = 1`, and different stale entries above; and two initialisations with the same
seed over different prior contents. -/
theorem C12_stale_entries_not_read_witness :
    (∃ tr H1 K1,
      obsRun MAX_HISTORY
        ⟨sampleState 0 :: sampleState 1 :: List.replicate 198 (sampleState 7), 1, 1⟩
        [Op.undo, Op.push (sampleState 5), Op.redo] = some (tr, H1) ∧
      obsRun MAX_HISTORY
        ⟨sampleState 0 :: sampleState 1 :: List.replicate 198 (sampleState 8), 1, 1⟩
        [Op.undo, Op.push (sampleState 5), Op.redo] = some (tr, K1) ∧
      tr.length = [Op.undo, Op.push (sampleState 5), Op.redo].length ∧ Agree H1 K1) ∧
    (∃ Hi Ki tr H1 K1,
      hist_init ⟨List.replicate MAX_HISTORY (sampleState 7), 9, 4⟩ (sampleState 0)
        = some Hi ∧
      hist_init ⟨List.replicate MAX_HISTORY (sampleState 8), 0, 0⟩ (sampleState 0)
        = some Ki ∧
      cur Hi = some (sampleState 0) ∧ cur Ki = some (sampleState 0) ∧
      obsRun MAX_HISTORY Hi [Op.push (sampleState 1), Op.undo] = some (tr, H1) ∧
      obsRun MAX_HISTORY Ki [Op.push (sampleState 1), Op.undo] = some (tr, K1) ∧
      tr.length = [Op.push (sampleState 1), Op.undo].length ∧ Agree H1 K1) :=
  ⟨C12_stale_entries_not_read.1
      ⟨sampleState 0 :: sampleState 1 :: List.replicate 198 (sampleState 7), 1, 1⟩
      ⟨sampleState 0 :: sampleState 1 :: List.replicate 198 (sampleState 8), 1, 1⟩
      [Op.undo, Op.push (sampleState 5), Op.redo]
      ⟨rfl, by decide, by decide, by decide⟩ ⟨rfl, by decide, by decide, by decide⟩
      ⟨rfl, rfl, fun j h0 h1 => by
        have hj : j = 0 ∨ j = 1 := by
          have h1b : j ≤ 1 := h1
          omega
        rcases hj with hj | hj <;> subst hj <;> rfl⟩,
   C12_stale_entries_not_read.2 ⟨List.replicate MAX_HISTORY (sampleState 7), 9, 4⟩
      ⟨List.replicate MAX_HISTORY (sampleState 8), 0, 0⟩ (sampleState 0)
      [Op.push (sampleState 1), Op.undo] (by simp) (by simp)⟩

/-! ## In-bounds access -/

theorem rd_eq_none_iff (a : List State) (i : Int) :
    rd a i = none ↔ ¬ (0 ≤ i ∧ i < (a.length : Int)) := by
  constructor
  · intro h hc
    obtain ⟨v, hv⟩ := rd_eq_some_of_lt a i hc.1 hc.2
    rw [hv] at h
    exact Option.noConfusion h
  · intro hc
    simp [rd, hc]

theorem wr_eq_none_iff (a : List State) (i : Int) (s : State) :
    wr a i s = none ↔ ¬ (0 ≤ i ∧ i < (a.length : Int)) := by
  constructor
  · intro h hc
    rw [wr_eq_some a i s hc.1 hc.2] at h
    exact Option.noConfusion h
  · intro hc
    simp [wr, hc]

theorem cur_some_of_valid (cap : Nat) (H : History) (hv : Valid cap H) :
    ∃ s, cur H = some s := by
  obtain ⟨hl, h0, h1, h2⟩ := hv
  exact rd_eq_some_of_lt H.hist H.cur h0 (by omega)

/-- C13 (totality, in-bounds access).  In this embedding every access of the array `hist`
is bounds-checked: a read or write fails exactly when its index is outside
`0 .. length - 1`.  From every history with `0 ≤ cur ≤ top ≤ MAX_HISTORY - 1` on the array
of `MAX_HISTORY` entries no check fails: `cur` returns an entry, at the index `cur ≤ top`;
`hist_push` succeeds (the shift loop with its reads of `hist[i+1]` and the final write
`hist[cur]` included: in the eviction case the loop on its own succeeds as well) and leaves
a valid history on which `cur` returns an entry; `hist_undo` and `hist_redo`, which do not
touch the array, leave a valid history on which `cur` returns an entry. -/
theorem C13_in_bounds (H : History) (next : State) (hv : Valid MAX_HISTORY H) :
    (∀ (a : List State) (i : Int), rd a i = none ↔ ¬ (0 ≤ i ∧ i < (a.length : Int))) ∧
    (∀ (a : List State) (i : Int) (s : State),
      wr a i s = none ↔ ¬ (0 ≤ i ∧ i < (a.length : Int))) ∧
    (∃ s, cur H = some s) ∧ 0 ≤ H.cur ∧ H.cur ≤ H.top ∧ H.top < (MAX_HISTORY : Int) ∧
    (∃ H1, hist_push MAX_HISTORY H next = some H1 ∧ Valid MAX_HISTORY H1 ∧
      ∃ s, cur H1 = some s) ∧
    (push_evicts MAX_HISTORY H → ∃ a, shift H.hist 0 (push_top1 H).toNat = some a) ∧
    (Valid MAX_HISTORY (hist_undo H).2 ∧ ∃ s, cur (hist_undo H).2 = some s) ∧
    (Valid MAX_HISTORY (hist_redo H).2 ∧ ∃ s, cur (hist_redo H).2 = some s) := by
  have hv' := hv
  obtain ⟨hl, h0, h1, h2⟩ := hv'
  refine ⟨rd_eq_none_iff, wr_eq_none_iff, cur_some_of_valid _ H hv, h0, h1, by omega,
    ?_, ?_, ?_, ?_⟩
  · obtain ⟨H1, hp, hv1, _, _⟩ := hist_push_valid MAX_HISTORY H next (by decide) hv
    exact ⟨H1, hp, hv1, cur_some_of_valid _ H1 hv1⟩
  · intro _
    have hle : push_top1 H ≤ H.top := by
      unfold push_top1
      by_cases hc : H.cur < H.top
      · rw [if_pos hc]; omega
      · rw [if_neg hc]
    have h0t : 0 ≤ push_top1 H := by
      unfold push_top1
      by_cases hc : H.cur < H.top
      · rw [if_pos hc]; omega
      · rw [if_neg hc]; omega
    obtain ⟨a, ha, _⟩ := shift_spec (push_top1 H).toNat H.hist 0 (le_refl 0) (by omega)
    exact ⟨a, ha⟩
  · exact ⟨hist_undo_valid _ H hv, cur_some_of_valid _ _ (hist_undo_valid _ H hv)⟩
  · exact ⟨hist_redo_valid _ H hv, cur_some_of_valid _ _ (hist_redo_valid _ H hv)⟩

/-- Witness of C13: the full history (`cur = top = MAX_HISTORY - 1`), where the push runs
the shift loop. -/
theorem C13_in_bounds_witness :
    Valid MAX_HISTORY ⟨List.replicate MAX_HISTORY (sampleState 0), 199, 199⟩ ∧
    ∃ H1, hist_push MAX_HISTORY ⟨List.replicate MAX_HISTORY (sampleState 0), 199, 199⟩
        (sampleState 1) = some H1 ∧ Valid MAX_HISTORY H1 ∧ ∃ s, cur H1 = some s :=
  ⟨⟨by simp, by decide, by decide, by decide⟩,
   (C13_in_bounds ⟨List.replicate MAX_HISTORY (sampleState 0), 199, 199⟩ (sampleState 1)
      ⟨by simp, by decide, by decide, by decide⟩).2.2.2.2.2.2.1⟩

/-! ## The two branches of a push -/

/-- When the eviction condition holds, `hist_push` is the eviction path: shift, then write
at `push_cur1 H + 1`. -/
theorem hist_push_of_evicts (cap : Nat) (H : History) (next : State)
    (he : push_evicts cap H) :
    hist_push cap H next =
      match shift H.hist 0 (push_top1 H).toNat with
      | none => none
      | some h =>
        match wr h (push_cur1 H + 1) next with
        | none => none
        | some h2 => some ⟨h2, push_top1 H - 1 + 1, push_cur1 H + 1⟩ := by
  unfold push_evicts at he
  unfold push_top1 at he ⊢
  unfold push_cur1 hist_push
  by_cases hlt : H.cur < H.top
  · rw [if_pos hlt] at he
    have he2 : (cap : Int) ≤ H.cur + 1 := he
    by_cases hpos : H.cur > 0
    · have hpos2 : 0 < H.cur := hpos
      simp only [if_pos hlt, if_pos hpos, ge_iff_le, he2, if_true, gt_iff_lt, hpos2]
      cases shift H.hist 0 H.cur.toNat <;> rfl
    · have hpos2 : ¬ 0 < H.cur := hpos
      simp only [if_pos hlt, if_neg hpos, ge_iff_le, he2, if_true, gt_iff_lt, hpos2, if_false]
      cases shift H.hist 0 H.cur.toNat <;> rfl
  · rw [if_neg hlt] at he
    have he2 : (cap : Int) ≤ H.top + 1 := he
    by_cases hpos : H.cur > 0
    · have hpos2 : 0 < H.cur := hpos
      simp only [if_neg hlt, if_pos hpos, ge_iff_le, he2, if_true, gt_iff_lt, hpos2]
      cases shift H.hist 0 H.top.toNat <;> rfl
    · have hpos2 : ¬ 0 < H.cur := hpos
      simp only [if_neg hlt, if_neg hpos, ge_iff_le, he2, if_true, gt_iff_lt, hpos2, if_false]
      cases shift H.hist 0 H.top.toNat <;> rfl

/-- When the eviction condition fails, `hist_push` only writes right above the cursor. -/
theorem hist_push_of_not_evicts (cap : Nat) (H : History) (next : State)
    (he : ¬ push_evicts cap H) :
    hist_push cap H next =
      match wr H.hist (H.cur + 1) next with
      | none => none
      | some h2 => some ⟨h2, push_top1 H + 1, H.cur + 1⟩ := by
  unfold push_evicts at he
  unfold push_top1 at he ⊢
  unfold hist_push
  by_cases hlt : H.cur < H.top
  · rw [if_pos hlt] at he
    have he2 : ¬ (cap : Int) ≤ H.cur + 1 := he
    simp only [if_pos hlt, ge_iff_le, he2, if_false]
  · rw [if_neg hlt] at he
    have he2 : ¬ (cap : Int) ≤ H.top + 1 := he
    simp only [if_neg hlt, ge_iff_le, he2, if_false]

/-- C15 (truncation and eviction are mutually exclusive).  `push_truncates` and
`push_evicts` are the conditions of the two `if`s of `hist_push`, which is the eviction
path exactly under `push_evicts` (first two parts, for every history).  From a history with
`0 ≤ cur ≤ top ≤ MAX_HISTORY - 1`: the eviction branch is taken if and only if
`cur = top = MAX_HISTORY - 1` on entry; a push that truncates never evicts; and whenever
eviction happens the cursor is `> 0`, so the guard `cur > 0` holds and the cursor is
decremented (the case of a cursor 0 at eviction does not occur). -/
theorem C15_truncation_eviction_exclusive (H : History) (next : State)
    (hv : Valid MAX_HISTORY H) :
    (push_evicts MAX_HISTORY H →
      hist_push MAX_HISTORY H next =
        match shift H.hist 0 (push_top1 H).toNat with
        | none => none
        | some h =>
          match wr h (push_cur1 H + 1) next with
          | none => none
          | some h2 => some ⟨h2, push_top1 H - 1 + 1, push_cur1 H + 1⟩) ∧
    (¬ push_evicts MAX_HISTORY H →
      hist_push MAX_HISTORY H next =
        match wr H.hist (H.cur + 1) next with
        | none => none
        | some h2 => some ⟨h2, push_top1 H + 1, H.cur + 1⟩) ∧
    (push_evicts MAX_HISTORY H ↔
      H.cur = (MAX_HISTORY : Int) - 1 ∧ H.top = (MAX_HISTORY : Int) - 1) ∧
    (push_truncates H → ¬ push_evicts MAX_HISTORY H) ∧
    (push_evicts MAX_HISTORY H → 0 < H.cur ∧ push_cur1 H = H.cur - 1) := by
  obtain ⟨hl, h0, h1, h2⟩ := hv
  have key : push_evicts MAX_HISTORY H ↔
      H.cur = (MAX_HISTORY : Int) - 1 ∧ H.top = (MAX_HISTORY : Int) - 1 := by
    unfold push_evicts push_top1
    by_cases hlt : H.cur < H.top
    · rw [if_pos hlt]; constructor <;> intro h <;> omega
    · rw [if_neg hlt]; constructor <;> intro h <;> omega
  refine ⟨hist_push_of_evicts _ H next, hist_push_of_not_evicts _ H next, key, ?_, ?_⟩
  · intro ht he
    have := key.mp he
    unfold push_truncates at ht
    omega
  · intro he
    have hk := key.mp he
    have hpos : 0 < H.cur := by
      have : (MAX_HISTORY : Int) = 200 := rfl
      omega
    refine ⟨hpos, ?_⟩
    unfold push_cur1
    rw [if_pos hpos]

/-- Witness of C15: on the full history the eviction branch is taken and the cursor is
decremented; on a history with `cur = 1 < top = 3` the push truncates and does not evict. -/
theorem C15_truncation_eviction_exclusive_witness :
    (push_evicts MAX_HISTORY ⟨List.replicate MAX_HISTORY (sampleState 0), 199, 199⟩ ∧
      push_cur1 ⟨List.replicate MAX_HISTORY (sampleState 0), 199, 199⟩ = 199 - 1) ∧
    (push_truncates ⟨List.replicate MAX_HISTORY (sampleState 0), 3, 1⟩ ∧
      ¬ push_evicts MAX_HISTORY ⟨List.replicate MAX_HISTORY (sampleState 0), 3, 1⟩) :=
  ⟨⟨(C15_truncation_eviction_exclusive
        ⟨List.replicate MAX_HISTORY (sampleState 0), 199, 199⟩ (sampleState 1)
        ⟨by simp, by decide, by decide, by decide⟩).2.2.1.mpr ⟨rfl, rfl⟩,
     ((C15_truncation_eviction_exclusive
        ⟨List.replicate MAX_HISTORY (sampleState 0), 199, 199⟩ (sampleState 1)
        ⟨by simp, by decide, by decide, by decide⟩).2.2.2.2
        (by unfold push_evicts push_top1; decide)).2⟩,
   ⟨by unfold push_truncates; decide,
     (C15_truncation_eviction_exclusive
        ⟨List.replicate MAX_HISTORY (sampleState 0), 3, 1⟩ (sampleState 1)
        ⟨by simp, by decide, by decide, by decide⟩).2.2.2.1
        (by unfold push_truncates; decide)⟩⟩

/-! ## Undo depth -/

theorem undoN_spec (H : History) :
    ∀ k : Nat, (k : Int) ≤ H.cur → undoN H k = { H with cur := H.cur - (k : Int) } := by
  intro k
  induction k with
  | zero => intro _; simp [undoN]
  | succ k ih =>
    intro hk
    have hk1 : (k : Int) ≤ H.cur := by omega
    have hne : ¬ H.cur - (k : Int) = 0 := by omega
    simp only [undoN, ih hk1, hist_undo, if_neg hne]
    congr 1
    omega

/-- C16 (undo depth).  For every `n`, after `hist_init` with `S 0` and the pushes of
`S 1, ..., S n` (no undo or redo in between), exactly `min n (MAX_HISTORY - 1)` consecutive
`hist_undo` calls return 1 and the next one returns 0; after the `k`-th successful undo
(`k = j + 1`) the current snapshot is `S (n - k)`.  So at most `MAX_HISTORY - 1 = 199`
committed changes can be undone. -/
theorem C16_undo_depth (H0 : History) (S : Nat → State) (n : Nat)
    (hlen : H0.hist.length = MAX_HISTORY) :
    ∃ Hi H1, hist_init H0 (S 0) = some Hi ∧ pushSeq MAX_HISTORY S Hi n = some H1 ∧
      (∀ j : Nat, j < min n (MAX_HISTORY - 1) →
        (hist_undo (undoN H1 j)).1 = 1 ∧ cur (undoN H1 (j + 1)) = some (S (n - (j + 1)))) ∧
      (hist_undo (undoN H1 (min n (MAX_HISTORY - 1)))).1 = 0 ∧
      min n (MAX_HISTORY - 1) ≤ 199 := by
  obtain ⟨Hi, hi, hvi, hci, hti, hsi⟩ := hist_init_valid MAX_HISTORY (by decide) H0 (S 0) hlen
  obtain ⟨H1, hp, hv1, ht, hc, he⟩ :=
    pushSeq_spec MAX_HISTORY (by decide) S Hi hvi hci hti hsi n
  have hM : MAX_HISTORY - 1 = 199 := rfl
  rw [hM] at ht hc he ⊢
  refine ⟨Hi, H1, hi, hp, ?_, ?_, by omega⟩
  · intro j hj
    have e1 := undoN_spec H1 j (by omega)
    have e2 := undoN_spec H1 (j + 1) (by omega)
    constructor
    · have hne : ¬ H1.cur - (j : Int) = 0 := by omega
      rw [e1]
      simp only [hist_undo, if_neg hne]
    · rw [e2]
      unfold cur
      have hidx : H1.cur - ((j + 1 : Nat) : Int) = ((min n 199 - (j + 1) : Nat) : Int) := by
        omega
      have hS : n - (j + 1) = (min n 199 - (j + 1)) + (n - 199) := by omega
      show rd H1.hist (H1.cur - ((j + 1 : Nat) : Int)) = _
      rw [hidx, hS]
      exact he (min n 199 - (j + 1)) (by omega)
  · have e1 := undoN_spec H1 (min n 199) (by omega)
    have hz : H1.cur - ((min n 199 : Nat) : Int) = 0 := by omega
    rw [e1]
    simp only [hist_undo, if_pos hz]

/-- Witness of C16: three pushes after the seed, the snapshot `S k` having life total `k`. -/
theorem C16_undo_depth_witness :
    ∃ Hi H1, hist_init ⟨List.replicate MAX_HISTORY (sampleState 0), 0, 0⟩
        ((fun k : Nat => sampleState (Int.ofNat k)) 0) = some Hi ∧
      pushSeq MAX_HISTORY (fun k : Nat => sampleState (Int.ofNat k)) Hi 3 = some H1 ∧
      (∀ j : Nat, j < min 3 (MAX_HISTORY - 1) →
        (hist_undo (undoN H1 j)).1 = 1 ∧
        cur (undoN H1 (j + 1))
          = some ((fun k : Nat => sampleState (Int.ofNat k)) (3 - (j + 1)))) ∧
      (hist_undo (undoN H1 (min 3 (MAX_HISTORY - 1)))).1 = 0 ∧
      min 3 (MAX_HISTORY - 1) ≤ 199 :=
  C16_undo_depth ⟨List.replicate MAX_HISTORY (sampleState 0), 0, 0⟩
    (fun k : Nat => sampleState (Int.ofNat k)) 3 (by simp)

/-! ## The match state -/

theorem clamp_players_cases (p : Int) :
    clamp_players p = max 2 (min p 4) ∧
      (clamp_players p = 2 ∨ clamp_players p = 3 ∨ clamp_players p = 4) := by
  have hM : (MAX_PLAYERS : Int) = 4 := rfl
  unfold clamp_players
  simp only [hM]
  by_cases h1 : p < 2
  · simp only [if_pos h1]
    have h2 : ¬ ((2 : Int) > 4) := by decide
    rw [if_neg h2]
    constructor <;> omega
  · simp only [if_neg h1]
    by_cases h2 : p > 4
    · rw [if_pos h2]; constructor <;> omega
    · rw [if_neg h2]; constructor <;> omega

/-- The closed form of `reset_match`: it always succeeds, and the first `clamp_players p`
life totals are `commander ? 40 : 20`. -/
theorem reset_match_eq (p c : Int) :
    reset_match p c = some
      { players := clamp_players p, commander := c,
        life := [if c ≠ 0 then 40 else 20, if c ≠ 0 then 40 else 20,
                 if 3 ≤ clamp_players p then (if c ≠ 0 then 40 else 20) else 0,
                 if 4 ≤ clamp_players p then (if c ≠ 0 then 40 else 20) else 0],
        poison := [0, 0, 0, 0],
        cmdmg := [[0, 0, 0, 0], [0, 0, 0, 0], [0, 0, 0, 0], [0, 0, 0, 0]], turn := 0 } := by
  rcases (clamp_players_cases p).2 with hk | hk | hk
  · simp only [reset_match, hk]; rfl
  · simp only [reset_match, hk]; rfl
  · simp only [reset_match, hk]; rfl

theorem geti_eq_some_of_lt (a : List Int) (i : Int) (h0 : 0 ≤ i) (h1 : i < (a.length : Int)) :
    ∃ v, geti a i = some v ∧ v ∈ a := by
  have hlt : i.toNat < a.length := by omega
  exact ⟨a[i.toNat], by simp [geti, h0, h1, List.getElem?_eq_getElem hlt],
    List.getElem_mem hlt⟩

theorem seti_eq_some (a : List Int) (i v : Int) (h0 : 0 ≤ i) (h1 : i < (a.length : Int)) :
    seti a i v = some (a.set i.toNat v) := by
  simp [seti, h0, h1]

theorem geti_of_seti (a : List Int) (i v : Int) (h0 : 0 ≤ i) (h1 : i < (a.length : Int))
    (j : Int) : geti (a.set i.toNat v) j = if j = i then some v else geti a j := by
  by_cases hj : 0 ≤ j ∧ j < (a.length : Int)
  · by_cases hji : j = i
    · subst hji
      have hlt : j.toNat < a.length := by omega
      simp [geti, h0, h1, hlt]
    · have hne : i.toNat ≠ j.toNat := by omega
      simp [geti, hj, hji, List.getElem?_set_ne hne]
  · have hji : j ≠ i := by omega
    simp [geti, hj, hji]

theorem get2_eq_some_of_lt (m : List (List Int)) (i j : Int) (h0 : 0 ≤ i)
    (h1 : i < (m.length : Int)) (hj0 : 0 ≤ j)
    (hrow : ∀ row ∈ m, j < (row.length : Int)) :
    ∃ row v, m[i.toNat]? = some row ∧ row ∈ m ∧ geti row j = some v ∧ v ∈ row ∧
      get2 m i j = some v := by
  have hlt : i.toNat < m.length := by omega
  have hmem : m[i.toNat] ∈ m := List.getElem_mem hlt
  obtain ⟨v, hv, hvm⟩ := geti_eq_some_of_lt m[i.toNat] j hj0 (hrow _ hmem)
  refine ⟨m[i.toNat], v, List.getElem?_eq_getElem hlt, hmem, hv, hvm, ?_⟩
  simp [get2, h0, h1, List.getElem?_eq_getElem hlt, hv]

theorem set2_eq_some (m : List (List Int)) (i j v : Int) (row : List Int) (h0 : 0 ≤ i)
    (h1 : i < (m.length : Int)) (hr : m[i.toNat]? = some row) (hj0 : 0 ≤ j)
    (hj1 : j < (row.length : Int)) :
    set2 m i j v = some (m.set i.toNat (row.set j.toNat v)) := by
  simp [set2, h0, h1, hr, seti_eq_some row j v hj0 hj1]

theorem apply_cmd_new (T : State) (p : Int) (c : Bool) :
    apply_cmd T (Cmd.new p c) =
      (reset_match (if p ≤ 0 then 4 else p) (if c then 1 else 0)).map (fun S => (S, true)) := by
  simp only [apply_cmd]
  cases reset_match (if p ≤ 0 then 4 else p) (if c then 1 else 0) <;> rfl

/-! ## The claims on the match state -/

/-- C11, the code at the failing input.  The help text of `print_help` announces
`new <players 2-6>`, but `reset_match` clamps the count to `MAX_PLAYERS = 4`: the command
`new 5` (and likewise `new 6`), in either mode, leaves a state with 4 players, not 5
(or 6). -/
theorem C11_new_clamps_to_four (T : State) (c : Bool) :
    ∃ S5 S6, apply_cmd T (Cmd.new 5 c) = some (S5, true) ∧ S5.players = 4 ∧
      S5.players ≠ 5 ∧
      apply_cmd T (Cmd.new 6 c) = some (S6, true) ∧ S6.players = 4 ∧ S6.players ≠ 6 := by
  have h5 : ¬ ((5 : Int) ≤ 0) := by decide
  have h6 : ¬ ((6 : Int) ≤ 0) := by decide
  have e5 : clamp_players 5 = 4 := by decide
  have e6 : clamp_players 6 = 4 := by decide
  refine ⟨_, _, (by rw [apply_cmd_new, if_neg h5, reset_match_eq]; rfl), ?_, ?_,
    (by rw [apply_cmd_new, if_neg h6, reset_match_eq]; rfl), ?_, ?_⟩
  · exact e5
  · show clamp_players 5 ≠ 5; rw [e5]; decide
  · exact e6
  · show clamp_players 6 ≠ 6; rw [e6]; decide

/-- C17 (postcondition of `reset_match`).  For every integer `players` and every flag
`commander`, `reset_match` succeeds with a state whose player count is `players` clamped
into `2 .. MAX_PLAYERS`, whose `commander` field is the given flag, whose life total at
each index below the player count is 40 when the flag is non-zero and 20 when it is zero,
whose life totals at the remaining indices are 0, whose poison counters and
commander-damage entries are all 0, and whose turn is 0. -/
theorem C17_reset_match_post (players commander : Int) :
    ∃ S, reset_match players commander = some S ∧
      S.players = max 2 (min players (MAX_PLAYERS : Int)) ∧
      2 ≤ S.players ∧ S.players ≤ (MAX_PLAYERS : Int) ∧
      S.commander = commander ∧
      (∀ i : Int, 0 ≤ i → i < S.players →
        geti S.life i = some (if commander ≠ 0 then 40 else 20)) ∧
      (∀ i : Int, S.players ≤ i → i < (MAX_PLAYERS : Int) → geti S.life i = some 0) ∧
      (∀ i : Int, 0 ≤ i → i < (MAX_PLAYERS : Int) → geti S.poison i = some 0) ∧
      (∀ i j : Int, 0 ≤ i → i < (MAX_PLAYERS : Int) → 0 ≤ j → j < (MAX_PLAYERS : Int) →
        get2 S.cmdmg i j = some 0) ∧
      S.turn = 0 := by
  have hM : (MAX_PLAYERS : Int) = 4 := rfl
  obtain ⟨hmax, hk⟩ := clamp_players_cases players
  refine ⟨_, reset_match_eq players commander, by rw [hM]; exact hmax, ?_, ?_, rfl,
    ?_, ?_, ?_, ?_, rfl⟩
  · show 2 ≤ clamp_players players; omega
  · show clamp_players players ≤ (MAX_PLAYERS : Int); omega
  · intro i h0 h1
    have h1b : i < clamp_players players := h1
    rcases hk with hk | hk | hk <;> rw [hk] at h1b <;> simp only [hk] <;>
      (have hi : i = 0 ∨ i = 1 ∨ i = 2 ∨ i = 3 := by omega) <;>
      rcases hi with hi | hi | hi | hi <;> subst hi <;>
      first | rfl | (exfalso; omega)
  · intro i h0 h1
    have h0b : clamp_players players ≤ i := h0
    rcases hk with hk | hk | hk <;> rw [hk] at h0b <;> simp only [hk] <;>
      (have hi : i = 2 ∨ i = 3 ∨ i < 2 ∨ 3 < i := by omega) <;>
      rcases hi with hi | hi | hi | hi <;>
      first | (exfalso; omega) | (subst hi; rfl)
  · intro i h0 h1
    have hi : i = 0 ∨ i = 1 ∨ i = 2 ∨ i = 3 := by omega
    rcases hi with hi | hi | hi | hi <;> subst hi <;> rfl
  · intro i j h0 h1 hj0 hj1
    have hi : i = 0 ∨ i = 1 ∨ i = 2 ∨ i = 3 := by omega
    have hj : j = 0 ∨ j = 1 ∨ j = 2 ∨ j = 3 := by omega
    rcases hi with hi | hi | hi | hi <;> rcases hj with hj | hj | hj | hj <;>
      subst hi <;> subst hj <;> rfl

/-- Witness of C17: `reset_match` asked for 9 players in standard mode. -/
theorem C17_reset_match_post_witness :
    ∃ S, reset_match 9 0 = some S ∧
      S.players = max 2 (min 9 (MAX_PLAYERS : Int)) ∧
      2 ≤ S.players ∧ S.players ≤ (MAX_PLAYERS : Int) ∧
      S.commander = 0 ∧
      (∀ i : Int, 0 ≤ i → i < S.players →
        geti S.life i = some (if (0 : Int) ≠ 0 then 40 else 20)) ∧
      (∀ i : Int, S.players ≤ i → i < (MAX_PLAYERS : Int) → geti S.life i = some 0) ∧
      (∀ i : Int, 0 ≤ i → i < (MAX_PLAYERS : Int) → geti S.poison i = some 0) ∧
      (∀ i j : Int, 0 ≤ i → i < (MAX_PLAYERS : Int) → 0 ≤ j → j < (MAX_PLAYERS : Int) →
        get2 S.cmdmg i j = some 0) ∧
      S.turn = 0 :=
  C17_reset_match_post 9 0

/-! ## The commands keep the state well formed -/

theorem get2_of_set2 (m : List (List Int)) (i j v : Int) (row : List Int) (h0 : 0 ≤ i)
    (h1 : i < (m.length : Int)) (hr : m[i.toNat]? = some row) (hj0 : 0 ≤ j)
    (hj1 : j < (row.length : Int)) (a b : Int) :
    get2 (m.set i.toNat (row.set j.toNat v)) a b =
      if a = i ∧ b = j then some v else get2 m a b := by
  by_cases ha : 0 ≤ a ∧ a < (m.length : Int)
  · by_cases hai : a = i
    · subst hai
      have hlt : a.toNat < m.length := by omega
      have e1 : get2 (m.set a.toNat (row.set j.toNat v)) a b = geti (row.set j.toNat v) b := by
        simp [get2, ha, hlt]
      have e2 : get2 m a b = geti row b := by
        simp [get2, ha, hr]
      rw [e1, e2, geti_of_seti row j v hj0 hj1 b]
      by_cases hb : b = j
      · simp [hb]
      · simp [hb]
    · have hne : i.toNat ≠ a.toNat := by omega
      have hn : ¬ (a = i ∧ b = j) := fun h => hai h.1
      rw [if_neg hn]
      simp [get2, ha, List.getElem?_set_ne hne]
  · have hn : ¬ (a = i ∧ b = j) := fun h => ha (by omega)
    rw [if_neg hn]
    simp [get2, ha]

theorem wrap32_eq_self (x : Int) (h0 : INT_MIN ≤ x) (h1 : x ≤ INT_MAX) : wrap32 x = x := by
  unfold INT_MIN at h0
  unfold INT_MAX at h1
  unfold wrap32
  omega

theorem clamp_zero_eq_max (w : Int) : (if w < 0 then 0 else w) = max 0 w := by
  by_cases h : w < 0
  · rw [if_pos h]; omega
  · rw [if_neg h]; omega

theorem stateOK_reset (p c : Int) : ∃ S, reset_match p c = some S ∧ StateOK S := by
  have hM : (MAX_PLAYERS : Int) = 4 := rfl
  obtain ⟨_, hk⟩ := clamp_players_cases p
  refine ⟨_, reset_match_eq p c, ?_, ?_, ?_, ?_, rfl, rfl, rfl, ?_, ?_, ?_⟩
  · show 2 ≤ clamp_players p; omega
  · show clamp_players p ≤ (MAX_PLAYERS : Int); omega
  · show (0 : Int) ≤ 0; decide
  · show 0 < clamp_players p; omega
  · intro row hrow
    simp only [List.mem_cons, List.mem_singleton, List.not_mem_nil, or_false, or_self] at hrow
    subst hrow; rfl
  · intro x hx
    simp only [List.mem_cons, List.mem_singleton, List.not_mem_nil, or_false, or_self] at hx
    omega
  · intro row hrow x hx
    simp only [List.mem_cons, List.mem_singleton, List.not_mem_nil, or_false, or_self] at hrow
    subst hrow
    simp only [List.mem_cons, List.mem_singleton, List.not_mem_nil, or_false, or_self] at hx
    omega

theorem stateOK_life (T : State) (l : List Int) (hl : l.length = MAX_PLAYERS)
    (h : StateOK T) : StateOK { T with life := l } := by
  obtain ⟨a1, a2, a3, a4, _, a6, a7, a8, a9, a10⟩ := h
  exact ⟨a1, a2, a3, a4, hl, a6, a7, a8, a9, a10⟩

theorem stateOK_poison (T : State) (k : Nat) (v : Int) (hv : 0 ≤ v) (h : StateOK T) :
    StateOK { T with poison := T.poison.set k v } := by
  obtain ⟨a1, a2, a3, a4, a5, a6, a7, a8, a9, a10⟩ := h
  refine ⟨a1, a2, a3, a4, a5, by simp [a6], a7, a8, ?_, a10⟩
  intro x hx
  rcases List.mem_or_eq_of_mem_set hx with hm | he
  · exact a9 x hm
  · rw [he]; exact hv

theorem stateOK_cmdmg (T : State) (k n : Nat) (row : List Int) (v : Int) (hv : 0 ≤ v)
    (hrow : row ∈ T.cmdmg) (h : StateOK T) :
    StateOK { T with cmdmg := T.cmdmg.set k (row.set n v) } := by
  obtain ⟨a1, a2, a3, a4, a5, a6, a7, a8, a9, a10⟩ := h
  refine ⟨a1, a2, a3, a4, a5, a6, by simp [a7], ?_, a9, ?_⟩
  · intro r hr
    rcases List.mem_or_eq_of_mem_set hr with hm | he
    · exact a8 r hm
    · rw [he]; simp [a8 row hrow]
  · intro r hr x hx
    rcases List.mem_or_eq_of_mem_set hr with hm | he
    · exact a10 r hm x hx
    · rw [he] at hx
      rcases List.mem_or_eq_of_mem_set hx with hm2 | he2
      · exact a10 row hrow x hm2
      · rw [he2]; exact hv

/-- The command `next` on a well-formed state. -/
theorem apply_next (T : State) (h2 : 2 ≤ T.players) (h4 : T.players ≤ (MAX_PLAYERS : Int))
    (h0 : 0 ≤ T.turn) (ht : T.turn < T.players) :
    apply_cmd T Cmd.next = some ({ T with turn := (T.turn + 1) % T.players }, true) := by
  have hM : (MAX_PLAYERS : Int) = 4 := rfl
  have hne : ¬ T.players = 0 := by omega
  have hw : wrap32 (T.turn + 1) = T.turn + 1 :=
    wrap32_eq_self _ (by unfold INT_MIN; omega) (by unfold INT_MAX; omega)
  simp only [apply_cmd, if_neg hne, hw, Int.tmod_eq_emod (by omega : 0 ≤ T.turn + 1)
    (by omega : 0 ≤ T.players)]

/-- The command `poison` with a player number in range. -/
theorem apply_poison (T : State) (p dv : Int) (h : StateOK T) (h1 : 1 ≤ p)
    (hp : p ≤ T.players) :
    ∃ old, geti T.poison (p - 1) = some old ∧ 0 ≤ old ∧
      apply_cmd T (Cmd.poison p dv) =
        some ({ T with poison := T.poison.set (p - 1).toNat (max 0 (wrap32 (old + dv))) },
          true) := by
  have hM : (MAX_PLAYERS : Int) = 4 := rfl
  have hl : (T.poison.length : Int) = 4 := by rw [h.2.2.2.2.2.1]; rfl
  have h4 := h.2.1
  obtain ⟨old, ho, hmem⟩ := geti_eq_some_of_lt T.poison (p - 1) (by omega) (by omega)
  refine ⟨old, ho, h.2.2.2.2.2.2.2.2.1 old hmem, ?_⟩
  have hg : p ≥ 1 ∧ p ≤ T.players := ⟨h1, hp⟩
  simp only [apply_cmd, if_pos hg, ho, clamp_zero_eq_max,
    seti_eq_some T.poison (p - 1) _ (by omega) (by omega)]

/-- The command `cmd` when its guard holds. -/
theorem apply_cmdmg (T : State) (tgt src inc : Int) (h : StateOK T)
    (hc : T.commander ≠ 0) (ht1 : 1 ≤ tgt) (ht2 : tgt ≤ T.players) (hs1 : 1 ≤ src)
    (hs2 : src ≤ T.players) (hne : tgt ≠ src) :
    ∃ row old, T.cmdmg[(tgt - 1).toNat]? = some row ∧ row ∈ T.cmdmg ∧
      (row.length : Int) = 4 ∧
      get2 T.cmdmg (tgt - 1) (src - 1) = some old ∧ 0 ≤ old ∧
      apply_cmd T (Cmd.cmd tgt src inc) =
        some ({ T with cmdmg := (T.cmdmg.set (tgt - 1).toNat
                  (row.set (src - 1).toNat (max 0 (wrap32 (old + inc))))) }, true) := by
  have hM : (MAX_PLAYERS : Int) = 4 := rfl
  have hl : (T.cmdmg.length : Int) = 4 := by rw [h.2.2.2.2.2.2.1]; rfl
  have hrows : ∀ row ∈ T.cmdmg, (row.length : Int) = 4 := by
    intro row hr; rw [h.2.2.2.2.2.2.2.1 row hr]; rfl
  have h4 := h.2.1
  obtain ⟨row, old, hr, hrm, hg, hom, hg2⟩ :=
    get2_eq_some_of_lt T.cmdmg (tgt - 1) (src - 1) (by omega) (by omega) (by omega)
      (fun row hrow => by rw [hrows row hrow]; omega)
  refine ⟨row, old, hr, hrm, hrows row hrm, hg2, h.2.2.2.2.2.2.2.2.2 row hrm old hom, ?_⟩
  have hgd : T.commander ≠ 0 ∧ tgt ≥ 1 ∧ tgt ≤ T.players ∧ src ≥ 1 ∧ src ≤ T.players ∧
      tgt ≠ src := ⟨hc, ht1, ht2, hs1, hs2, hne⟩
  simp only [apply_cmd, if_pos hgd, hg2, clamp_zero_eq_max,
    set2_eq_some T.cmdmg (tgt - 1) (src - 1) _ row (by omega) (by omega) hr (by omega)
      (by rw [hrows row hrm]; omega)]

/-- Every state-changing command runs on a well-formed state (no array access out of
range, no remainder by zero) and leaves a well-formed state. -/
theorem apply_cmd_ok (T : State) (c : Cmd) (h : StateOK T) :
    ∃ T1 ch, apply_cmd T c = some (T1, ch) ∧ StateOK T1 := by
  have hM : (MAX_PLAYERS : Int) = 4 := rfl
  have h4 := h.2.1
  have hll : (T.life.length : Int) = 4 := by rw [h.2.2.2.2.1]; rfl
  cases c with
  | new p b =>
    obtain ⟨S, hS, hok⟩ := stateOK_reset (if p ≤ 0 then 4 else p) (if b then 1 else 0)
    exact ⟨S, true, by rw [apply_cmd_new, hS]; rfl, hok⟩
  | next =>
    refine ⟨_, true, apply_next T h.1 h.2.1 h.2.2.1 h.2.2.2.1, ?_⟩
    obtain ⟨a1, a2, a3, a4, a5, a6, a7, a8, a9, a10⟩ := h
    exact ⟨a1, a2, Int.emod_nonneg _ (by omega), Int.emod_lt_of_pos _ (by omega),
      a5, a6, a7, a8, a9, a10⟩
  | set p val =>
    by_cases hg : p ≥ 1 ∧ p ≤ T.players
    · refine ⟨{ T with life := T.life.set (p - 1).toNat val }, true, ?_,
        stateOK_life T _ (by simp [h.2.2.2.2.1]) h⟩
      simp only [apply_cmd, if_pos hg, seti_eq_some T.life (p - 1) val (by omega) (by omega)]
    · exact ⟨T, false, by simp only [apply_cmd, if_neg hg], h⟩
  | poison p dv =>
    by_cases hg : p ≥ 1 ∧ p ≤ T.players
    · obtain ⟨old, _, _, ha⟩ := apply_poison T p dv h hg.1 hg.2
      exact ⟨_, true, ha, stateOK_poison T _ _ (le_max_left 0 _) h⟩
    · exact ⟨T, false, by simp only [apply_cmd, if_neg hg], h⟩
  | cmd tgt src inc =>
    by_cases hg : T.commander ≠ 0 ∧ tgt ≥ 1 ∧ tgt ≤ T.players ∧ src ≥ 1 ∧ src ≤ T.players ∧
        tgt ≠ src
    · obtain ⟨row, old, _, hrm, _, _, _, ha⟩ :=
        apply_cmdmg T tgt src inc h hg.1 hg.2.1 hg.2.2.1 hg.2.2.2.1 hg.2.2.2.2.1 hg.2.2.2.2.2
      exact ⟨_, true, ha, stateOK_cmdmg T _ _ row _ (le_max_left 0 _) hrm h⟩
    · exact ⟨T, false, by simp only [apply_cmd, if_neg hg], h⟩
  | plus p dv =>
    by_cases hg : p ≥ 1 ∧ p ≤ T.players
    · obtain ⟨old, ho, _⟩ := geti_eq_some_of_lt T.life (p - 1) (by omega) (by omega)
      refine ⟨{ T with life := T.life.set (p - 1).toNat (wrap32 (old + dv)) }, true, ?_,
        stateOK_life T _ (by simp [h.2.2.2.2.1]) h⟩
      simp only [apply_cmd, if_pos hg, ho,
        seti_eq_some T.life (p - 1) _ (by omega) (by omega)]
    · exact ⟨T, false, by simp only [apply_cmd, if_neg hg], h⟩
  | minus p dv =>
    by_cases hg : p ≥ 1 ∧ p ≤ T.players
    · obtain ⟨old, ho, _⟩ := geti_eq_some_of_lt T.life (p - 1) (by omega) (by omega)
      refine ⟨{ T with life := T.life.set (p - 1).toNat (wrap32 (old + wrap32 (-dv))) },
        true, ?_, stateOK_life T _ (by simp [h.2.2.2.2.1]) h⟩
      simp only [apply_cmd, if_pos hg, ho,
        seti_eq_some T.life (p - 1) _ (by omega) (by omega)]
    · exact ⟨T, false, by simp only [apply_cmd, if_neg hg], h⟩

/-! ## The command loop keeps the history well formed -/

theorem reset_match_4_1 :
    reset_match 4 1 = some
      { players := 4, commander := 1, life := [40, 40, 40, 40], poison := [0, 0, 0, 0],
        cmdmg := [[0, 0, 0, 0], [0, 0, 0, 0], [0, 0, 0, 0], [0, 0, 0, 0]], turn := 0 } := by
  rfl

theorem main_init_ok (cap : Nat) (hcap : 1 ≤ cap) (H0 : History) (hl : H0.hist.length = cap) :
    ∃ S Hi, reset_match 4 1 = some S ∧ main_init H0 = some Hi ∧ HistOK cap Hi ∧
      cur Hi = some S := by
  obtain ⟨S, hS, hok⟩ := stateOK_reset 4 1
  obtain ⟨Hi, hi, hvi, hci, hti, hsi⟩ := hist_init_valid cap hcap H0 S hl
  refine ⟨S, Hi, hS, by simp only [main_init, hS, hi], ⟨hvi, ?_⟩, by unfold cur; rw [hci]; exact hsi⟩
  intro j hj0 hj1
  have hj : j = 0 := by omega
  subst hj
  exact ⟨S, hsi, hok⟩

theorem main_step_ok (cap : Nat) (hcap : 2 ≤ cap) (H : History) (x : Input)
    (h : HistOK cap H) : ∃ H1, main_step cap H x = some H1 ∧ HistOK cap H1 := by
  obtain ⟨hv, hent⟩ := h
  obtain ⟨T, hT, hTok⟩ := hent H.cur hv.2.1 hv.2.2.1
  have hcur : cur H = some T := hT
  cases x with
  | undo =>
    refine ⟨(hist_undo H).2, by simp only [main_step, hcur], hist_undo_valid cap H hv, ?_⟩
    rw [(hist_undo_frame H).1, (hist_undo_frame H).2]
    exact hent
  | redo =>
    refine ⟨(hist_redo H).2, by simp only [main_step, hcur], hist_redo_valid cap H hv, ?_⟩
    rw [(hist_redo_frame H).1, (hist_redo_frame H).2]
    exact hent
  | cmd c =>
    obtain ⟨T1, ch, ha, hok1⟩ := apply_cmd_ok T c hTok
    cases ch with
    | false =>
      exact ⟨H, by simp [main_step, hcur, ha], hv, hent⟩
    | true =>
      obtain ⟨H1, hp, hv1, _, he1⟩ := hist_push_entries cap H T1 hcap hv
      refine ⟨H1, by simp [main_step, hcur, ha, hp], hv1, ?_⟩
      intro j hj0 hj1
      obtain ⟨s, hs, hor⟩ := he1 j hj0 hj1
      rcases hor with he | ⟨i, hi0, hi1, hi⟩
      · exact ⟨s, hs, by rw [he]; exact hok1⟩
      · obtain ⟨s2, hs2, hok2⟩ := hent i hi0 (by have := hv.2.2.1; omega)
        rw [hi] at hs2
        exact ⟨s, hs, by rw [Option.some.inj hs2]; exact hok2⟩

theorem main_run_ok (cap : Nat) (hcap : 2 ≤ cap) (xs : List Input) :
    ∀ H : History, HistOK cap H → ∃ H1, main_run cap H xs = some H1 ∧ HistOK cap H1 := by
  induction xs with
  | nil => intro H h; exact ⟨H, rfl, h⟩
  | cons x xs ih =>
    intro H h
    obtain ⟨H1, h1, hok1⟩ := main_step_ok cap hcap H x h
    obtain ⟨H2, h2, hok2⟩ := ih H1 hok1
    exact ⟨H2, by simp [main_run, h1, h2], hok2⟩

/-- C18 (player count and turn).  First part: from the start of `main`
(`reset_match(&S, 4, 1); hist_init(&H, &S)`), every sequence of the state-changing commands
(`new`, `next`, `set`, `poison`, `cmd`, `+`, `-`) with any arguments, also interleaved with
`undo` and `redo`, runs without failure, and afterwards every committed state in the window
(every entry at an index `0 .. top`) has `2 ≤ players ≤ MAX_PLAYERS` and
`0 ≤ turn < players`.  Second part: on such a state `next` sets the turn to
`(turn + 1) mod players`, which is 0 from the last player and `turn + 1` otherwise, and
changes nothing else. -/
theorem C18_players_turn_invariant :
    (∀ (H0 : History) (xs : List Input), H0.hist.length = MAX_HISTORY →
      ∃ Hi H, main_init H0 = some Hi ∧ main_run MAX_HISTORY Hi xs = some H ∧
        ∀ j : Int, 0 ≤ j → j ≤ H.top →
          ∃ s, rd H.hist j = some s ∧ 2 ≤ s.players ∧ s.players ≤ (MAX_PLAYERS : Int) ∧
            0 ≤ s.turn ∧ s.turn < s.players) ∧
    (∀ T : State, 2 ≤ T.players → T.players ≤ (MAX_PLAYERS : Int) → 0 ≤ T.turn →
      T.turn < T.players →
      apply_cmd T Cmd.next = some ({ T with turn := (T.turn + 1) % T.players }, true) ∧
      (T.turn = T.players - 1 → (T.turn + 1) % T.players = 0) ∧
      (T.turn < T.players - 1 → (T.turn + 1) % T.players = T.turn + 1)) := by
  constructor
  · intro H0 xs hl
    obtain ⟨S, Hi, _, hi, hoki, _⟩ := main_init_ok MAX_HISTORY (by decide) H0 hl
    obtain ⟨H, hr, _, hent⟩ := main_run_ok MAX_HISTORY (by decide) xs Hi hoki
    refine ⟨Hi, H, hi, hr, ?_⟩
    intro j hj0 hj1
    obtain ⟨s, hs, hok⟩ := hent j hj0 hj1
    exact ⟨s, hs, hok.1, hok.2.1, hok.2.2.1, hok.2.2.2.1⟩
  · intro T h2 h4 h0 ht
    refine ⟨apply_next T h2 h4 h0 ht, ?_, ?_⟩
    · intro he
      have e : T.turn + 1 = T.players := by omega
      rw [e]
      exact Int.emod_self
    · intro hlt
      exact Int.emod_eq_of_lt (by omega) (by omega)

/-- Witness of C18: a run with a new 3-player game and turns passed around the table; and
`next` on the last player of the initial state. -/
theorem C18_players_turn_invariant_witness :
    (∃ Hi H, main_init ⟨List.replicate MAX_HISTORY (sampleState 0), 5, 5⟩ = some Hi ∧
      main_run MAX_HISTORY Hi
        [Input.cmd (Cmd.new 3 false), Input.cmd Cmd.next, Input.cmd Cmd.next,
         Input.cmd Cmd.next, Input.undo, Input.cmd (Cmd.set 9 1)] = some H ∧
      ∀ j : Int, 0 ≤ j → j ≤ H.top →
        ∃ s, rd H.hist j = some s ∧ 2 ≤ s.players ∧ s.players ≤ (MAX_PLAYERS : Int) ∧
          0 ≤ s.turn ∧ s.turn < s.players) ∧
    (apply_cmd (State.mk 4 1 [40, 40, 40, 40] [0, 0, 0, 0]
        [[0, 0, 0, 0], [0, 0, 0, 0], [0, 0, 0, 0], [0, 0, 0, 0]] 3) Cmd.next
      = some ({ State.mk 4 1 [40, 40, 40, 40] [0, 0, 0, 0]
        [[0, 0, 0, 0], [0, 0, 0, 0], [0, 0, 0, 0], [0, 0, 0, 0]] 3 with
          turn := (3 + 1) % 4 }, true)) :=
  ⟨C18_players_turn_invariant.1 ⟨List.replicate MAX_HISTORY (sampleState 0), 5, 5⟩
      [Input.cmd (Cmd.new 3 false), Input.cmd Cmd.next, Input.cmd Cmd.next,
       Input.cmd Cmd.next, Input.undo, Input.cmd (Cmd.set 9 1)] (by simp),
   (C18_players_turn_invariant.2 (State.mk 4 1 [40, 40, 40, 40] [0, 0, 0, 0]
        [[0, 0, 0, 0], [0, 0, 0, 0], [0, 0, 0, 0], [0, 0, 0, 0]] 3)
      (by decide) (by decide) (by decide) (by decide)).1⟩

/-- C19, as stated, fails in two ways.  (1) The `cmd` command with in-range player numbers
does not always set the counter: from the initial state (commander mode, 4 players) the
command `cmd 1 1 5` (target = source) is rejected, `changed` stays 0 and the entry
`cmdmg[0][0]` is still 0, not `max 0 (0 + 5) = 5`.  (2) `max 0 (old + delta)` need not fit in
a C `int`: after `poison 1 2147483647` the counter is `INT_MAX`, and `poison 1 1` then
leaves 0 (the wrapped sum is negative and is clamped), not `max 0 (2147483647 + 1)`. -/
theorem C19_counterexample :
    (∃ T T1, reset_match 4 1 = some T ∧ apply_cmd T (Cmd.cmd 1 1 5) = some (T1, false) ∧
      get2 T.cmdmg 0 0 = some 0 ∧ get2 T1.cmdmg 0 0 = some 0 ∧
      get2 T1.cmdmg 0 0 ≠ some (max 0 (0 + 5))) ∧
    (∃ T T1 T2, reset_match 4 1 = some T ∧
      apply_cmd T (Cmd.poison 1 2147483647) = some (T1, true) ∧
      geti T1.poison 0 = some 2147483647 ∧
      apply_cmd T1 (Cmd.poison 1 1) = some (T2, true) ∧
      geti T2.poison 0 = some 0 ∧
      geti T2.poison 0 ≠ some (max 0 (2147483647 + 1))) := by
  refine ⟨⟨_, _, reset_match_4_1, rfl, rfl, rfl, by decide⟩,
    ⟨_, _, _, reset_match_4_1, rfl, rfl, rfl, rfl, by decide⟩⟩

/-- C19, amended (counters are clamped at zero).  (A) From the start of `main`, every
sequence of state-changing commands with any integer arguments (also interleaved with
`undo` / `redo`) runs without failure and every committed state in the window has every
poison counter `≥ 0` and every commander-damage entry `≥ 0`.  (B) The `poison` command with
a player number in `1 .. players` sets the counter to `max 0 (wrap32 (old + delta))`, which
is `max 0 (old + delta)` whenever `old + delta` fits in a C `int`, and changes no other
poison counter and no other field.  (C) The `cmd` command in commander mode with target and
source in `1 .. players` and different does the same on the entry `cmdmg[tgt-1][src-1]`.
(D) A `cmd` command whose guard fails (standard mode, a number out of range, or target =
source) changes nothing and sets no `changed` flag.  (E) Life totals may become negative:
after `-1 50` from the start the current state has life total `-10` for player 1. -/
theorem C19_counters_clamped :
    (∀ (H0 : History) (xs : List Input), H0.hist.length = MAX_HISTORY →
      ∃ Hi H, main_init H0 = some Hi ∧ main_run MAX_HISTORY Hi xs = some H ∧
        ∀ j : Int, 0 ≤ j → j ≤ H.top →
          ∃ s, rd H.hist j = some s ∧
            (∀ i : Int, 0 ≤ i → i < (MAX_PLAYERS : Int) →
              ∃ x, geti s.poison i = some x ∧ 0 ≤ x) ∧
            (∀ a b : Int, 0 ≤ a → a < (MAX_PLAYERS : Int) → 0 ≤ b →
              b < (MAX_PLAYERS : Int) → ∃ x, get2 s.cmdmg a b = some x ∧ 0 ≤ x)) ∧
    (∀ (T : State) (p dv : Int), StateOK T → 1 ≤ p → p ≤ T.players →
      ∃ old q, geti T.poison (p - 1) = some old ∧
        apply_cmd T (Cmd.poison p dv) = some ({ T with poison := q }, true) ∧
        geti q (p - 1) = some (max 0 (wrap32 (old + dv))) ∧
        (INT_MIN ≤ old + dv → old + dv ≤ INT_MAX →
          geti q (p - 1) = some (max 0 (old + dv))) ∧
        ∀ i : Int, i ≠ p - 1 → geti q i = geti T.poison i) ∧
    (∀ (T : State) (tgt src inc : Int), StateOK T → T.commander ≠ 0 → 1 ≤ tgt →
      tgt ≤ T.players → 1 ≤ src → src ≤ T.players → tgt ≠ src →
      ∃ old m, get2 T.cmdmg (tgt - 1) (src - 1) = some old ∧
        apply_cmd T (Cmd.cmd tgt src inc) = some ({ T with cmdmg := m }, true) ∧
        get2 m (tgt - 1) (src - 1) = some (max 0 (wrap32 (old + inc))) ∧
        (INT_MIN ≤ old + inc → old + inc ≤ INT_MAX →
          get2 m (tgt - 1) (src - 1) = some (max 0 (old + inc))) ∧
        ∀ a b : Int, ¬ (a = tgt - 1 ∧ b = src - 1) → get2 m a b = get2 T.cmdmg a b) ∧
    (∀ (T : State) (tgt src inc : Int),
      ¬ (T.commander ≠ 0 ∧ tgt ≥ 1 ∧ tgt ≤ T.players ∧ src ≥ 1 ∧ src ≤ T.players ∧
          tgt ≠ src) →
      apply_cmd T (Cmd.cmd tgt src inc) = some (T, false)) ∧
    (∀ H0 : History, H0.hist.length = MAX_HISTORY →
      ∃ Hi H s, main_init H0 = some Hi ∧
        main_run MAX_HISTORY Hi [Input.cmd (Cmd.minus 1 50)] = some H ∧
        cur H = some s ∧ geti s.life 0 = some (-10)) := by
  have hM : (MAX_PLAYERS : Int) = 4 := rfl
  refine ⟨?_, ?_, ?_, ?_, ?_⟩
  · intro H0 xs hl
    obtain ⟨S, Hi, _, hi, hoki, _⟩ := main_init_ok MAX_HISTORY (by decide) H0 hl
    obtain ⟨H, hr, _, hent⟩ := main_run_ok MAX_HISTORY (by decide) xs Hi hoki
    refine ⟨Hi, H, hi, hr, ?_⟩
    intro j hj0 hj1
    obtain ⟨s, hs, hok⟩ := hent j hj0 hj1
    obtain ⟨_, _, _, _, _, a6, a7, a8, a9, a10⟩ := hok
    refine ⟨s, hs, ?_, ?_⟩
    · intro i hi0 hi1
      obtain ⟨x, hx, hxm⟩ := geti_eq_some_of_lt s.poison i hi0 (by rw [a6]; exact hi1)
      exact ⟨x, hx, a9 x hxm⟩
    · intro a b ha0 ha1 hb0 hb1
      obtain ⟨row, x, _, hrm, _, hxm, hx⟩ :=
        get2_eq_some_of_lt s.cmdmg a b ha0 (by rw [a7]; exact ha1) hb0
          (fun row hrow => by rw [a8 row hrow]; exact hb1)
      exact ⟨x, hx, a10 row hrm x hxm⟩
  · intro T p dv hok h1 hp
    have h4 := hok.2.1
    have hl : (T.poison.length : Int) = 4 := by rw [hok.2.2.2.2.2.1]; rfl
    obtain ⟨old, ho, _, ha⟩ := apply_poison T p dv hok h1 hp
    have hg := geti_of_seti T.poison (p - 1) (max 0 (wrap32 (old + dv))) (by omega) (by omega)
    refine ⟨old, _, ho, ha, by rw [hg, if_pos rfl], ?_, ?_⟩
    · intro h0 h1'
      rw [hg, if_pos rfl, wrap32_eq_self _ h0 h1']
    · intro i hi
      rw [hg, if_neg hi]
  · intro T tgt src inc hok hc ht1 ht2 hs1 hs2 hne
    have h4 := hok.2.1
    have hl : (T.cmdmg.length : Int) = 4 := by rw [hok.2.2.2.2.2.2.1]; rfl
    obtain ⟨row, old, hr, hrm, hrl, hg2, _, ha⟩ :=
      apply_cmdmg T tgt src inc hok hc ht1 ht2 hs1 hs2 hne
    have hg := get2_of_set2 T.cmdmg (tgt - 1) (src - 1) (max 0 (wrap32 (old + inc))) row
      (by omega) (by omega) hr (by omega) (by omega)
    refine ⟨old, _, hg2, ha, by rw [hg, if_pos ⟨rfl, rfl⟩], ?_, ?_⟩
    · intro h0 h1'
      rw [hg, if_pos ⟨rfl, rfl⟩, wrap32_eq_self _ h0 h1']
    · intro a b hab
      rw [hg, if_neg hab]
  · intro T tgt src inc hg
    simp only [apply_cmd, if_neg hg]
  · intro H0 hl
    obtain ⟨S, Hi, hS, hi, hoki, hcur⟩ := main_init_ok MAX_HISTORY (by decide) H0 hl
    have hSe := Option.some.inj (hS.symm.trans reset_match_4_1)
    have ha : apply_cmd S (Cmd.minus 1 50) = some
        ({ players := 4, commander := 1, life := [-10, 40, 40, 40], poison := [0, 0, 0, 0],
           cmdmg := [[0, 0, 0, 0], [0, 0, 0, 0], [0, 0, 0, 0], [0, 0, 0, 0]], turn := 0 },
          true) := by
      rw [hSe]; rfl
    obtain ⟨H1, hp, _, _, hrd⟩ := hist_push_valid MAX_HISTORY Hi
      { players := 4, commander := 1, life := [-10, 40, 40, 40], poison := [0, 0, 0, 0],
        cmdmg := [[0, 0, 0, 0], [0, 0, 0, 0], [0, 0, 0, 0], [0, 0, 0, 0]], turn := 0 }
      (by decide) hoki.1
    exact ⟨Hi, H1, _, hi, by simp [main_run, main_step, hcur, ha, hp], hrd, rfl⟩

/-- Witness of C19 (amended): a run with poison and commander damage going up and down; the
`poison` and `cmd` commands on the initial state; a rejected `cmd`. -/
theorem C19_counters_clamped_witness :
    (∃ Hi H, main_init ⟨List.replicate MAX_HISTORY (sampleState 0), 0, 0⟩ = some Hi ∧
      main_run MAX_HISTORY Hi
        [Input.cmd (Cmd.poison 1 3), Input.cmd (Cmd.poison 1 (-7)),
         Input.cmd (Cmd.cmd 1 2 (-4))] = some H ∧
      ∀ j : Int, 0 ≤ j → j ≤ H.top →
        ∃ s, rd H.hist j = some s ∧
          (∀ i : Int, 0 ≤ i → i < (MAX_PLAYERS : Int) →
            ∃ x, geti s.poison i = some x ∧ 0 ≤ x) ∧
          (∀ a b : Int, 0 ≤ a → a < (MAX_PLAYERS : Int) → 0 ≤ b →
            b < (MAX_PLAYERS : Int) → ∃ x, get2 s.cmdmg a b = some x ∧ 0 ≤ x)) ∧
    (apply_cmd (State.mk 4 0 [20, 20, 20, 20] [0, 0, 0, 0]
        [[0, 0, 0, 0], [0, 0, 0, 0], [0, 0, 0, 0], [0, 0, 0, 0]] 0) (Cmd.cmd 1 2 5)
      = some (State.mk 4 0 [20, 20, 20, 20] [0, 0, 0, 0]
        [[0, 0, 0, 0], [0, 0, 0, 0], [0, 0, 0, 0], [0, 0, 0, 0]] 0, false)) ∧
    (∃ old q, geti [2, 0, 0, 0] (3 - 1) = some old ∧
      apply_cmd (State.mk 4 1 [40, 40, 40, 40] [2, 0, 0, 0]
          [[0, 0, 0, 0], [0, 0, 0, 0], [0, 0, 0, 0], [0, 0, 0, 0]] 0) (Cmd.poison 3 (-1))
        = some ({ State.mk 4 1 [40, 40, 40, 40] [2, 0, 0, 0]
          [[0, 0, 0, 0], [0, 0, 0, 0], [0, 0, 0, 0], [0, 0, 0, 0]] 0 with poison := q },
            true) ∧
      geti q (3 - 1) = some (max 0 (wrap32 (old + -1))) ∧
      (INT_MIN ≤ old + -1 → old + -1 ≤ INT_MAX → geti q (3 - 1) = some (max 0 (old + -1))) ∧
      ∀ i : Int, i ≠ 3 - 1 → geti q i = geti [2, 0, 0, 0] i) :=
  ⟨C19_counters_clamped.1 ⟨List.replicate MAX_HISTORY (sampleState 0), 0, 0⟩
      [Input.cmd (Cmd.poison 1 3), Input.cmd (Cmd.poison 1 (-7)),
       Input.cmd (Cmd.cmd 1 2 (-4))] (by simp),
   C19_counters_clamped.2.2.2.1 (State.mk 4 0 [20, 20, 20, 20] [0, 0, 0, 0]
        [[0, 0, 0, 0], [0, 0, 0, 0], [0, 0, 0, 0], [0, 0, 0, 0]] 0) 1 2 5 (by decide),
   C19_counters_clamped.2.1 (State.mk 4 1 [40, 40, 40, 40] [2, 0, 0, 0]
        [[0, 0, 0, 0], [0, 0, 0, 0], [0, 0, 0, 0], [0, 0, 0, 0]] 0) 3 (-1)
      (by unfold StateOK; decide) (by decide) (by decide)⟩

/-! ## Die rolls -/

/-- C20, the code at the failing inputs.  For the argument `d0` of the `roll` command (and
likewise `d` alone, or `dx`) `parse_die` returns `atoi` of the rest, which is 0, so `rintn`
computes `rand() % 0`, a remainder by zero with no value, for every value of `rand()`.  For
the argument `d-3` the size is `-3`, and with `rand() = 5` the result `5 % -3 + 1 = 3` is
not in `1 .. -3`.  The sizes of `d6` and of a missing or non-`d` argument are 6 and 20. -/
theorem C20_roll_size_not_positive :
    roll_size (some ['d', '0']) = 0 ∧ roll_size (some ['d']) = 0 ∧
    roll_size (some ['d', 'x']) = 0 ∧ (∀ r : Int, rintn r 0 = none) ∧
    roll_size (some ['d', '-', '3']) = -3 ∧ rintn 5 (-3) = some 3 ∧
    ¬ ((1 : Int) ≤ 3 ∧ (3 : Int) ≤ -3) ∧
    roll_size (some ['d', '6']) = 6 ∧ roll_size none = 20 ∧
    roll_size (some ['6']) = 20 := by
  refine ⟨by decide, by decide, by decide, fun r => by simp [rintn], by decide, by decide,
    by decide, by decide, by decide, by decide⟩

end MtgLifeTracker
